import Mathlib

/-!
usdt-wallet: memory-safe signing key and HD node

A shallow embedding of `src/memory-safe-signing-key.js` and
`src/memory-safe/hd-node-wallet.js`.

Conventions of the embedding.

* A `Uint8Array` is a `List Nat` whose entries are bytes (`< 256`); the byte
  range is a hypothesis of the theorems, and every typed-array store in the
  code is written with the reduction modulo 256 that the store performs.
* An indexed read `buf[i]` is `buf[i]?`: `none` stands for JavaScript's
  `undefined` of a read past the end.
* JavaScript numbers that the code handles are small integers, so `Nat` and
  `Int` arithmetic is exact; `x & 0xff` and `x >> 8` on a non-negative number
  are `x % 256` and `x / 256`.
* The cryptographic primitives of the imported libraries (HMAC-SHA512,
  secp256k1 point multiplication, the fingerprint hash) are parameters.
* The constructors of the base classes, which `super (...)` runs, fail in two
  cases: they read the public key of the signing key, which the curve library
  refuses for a scalar that is `0` or not below the group order, and they
  compare the guard they are given with the private guard of the library.
* A library call that is given `null` where it expects a byte array fails; the
  code itself has no test for a disposed key.
* The first sections pass the contents of the byte arrays.  The section
  "Objects and memory" keeps the arrays in a memory and passes references, for
  the statements on which array is written.
-/

namespace UsdtWallet

/-! ## Fixed-width arithmetic of `memory-safe-signing-key.js` -/

/-- The group order `secp256k1.CURVE.n`; the same number is the constant `N` of
`hd-node-wallet.js`. -/
def CURVE_n : Nat :=
  0xfffffffffffffffffffffffffffffffebaaedce6af48a03bbfd25e8cd0364141

/-- The expression `Number((secp256k1.CURVE.n >> BigInt(8 * (31 - i))) & 0xffn)`. -/
def curveOrderByte (i : Nat) : Nat :=
  Nat.land (CURVE_n >>> (8 * (31 - i))) 0xff

/-- Big-endian unsigned value of a byte sequence. -/
def beValue (bs : List Nat) : Nat :=
  bs.foldl (fun acc b => acc * 256 + b) 0

/-- The loop of `compareWithCurveOrder`: `todo` iterations remain and the next
one is at position `i`.  A comparison with `undefined` is false both ways, so a
read past the end falls through to the next iteration. -/
def compareLoop (buffer : List Nat) (offset : Nat) : Nat → Nat → Int
  | 0, _ => 0
  | todo + 1, i =>
    match buffer[offset + i]? with
    | some v =>
      if v > curveOrderByte i then 1
      else if v < curveOrderByte i then -1
      else compareLoop buffer offset todo (i + 1)
    | none => compareLoop buffer offset todo (i + 1)

/-- The function `compareWithCurveOrder (buffer, offset = 0)`. -/
def compareWithCurveOrder (buffer : List Nat) (offset : Nat := 0) : Int :=
  compareLoop buffer offset 32 0

/-- State of the loop of `sumPrivateKeys`: the two buffers and the carry. -/
structure SumState where
  a : List Nat
  b : List Nat
  carry : Nat
  deriving DecidableEq, Repr

/-- The loop of `sumPrivateKeys`, `for (let i = 31; i >= 0; i--)`: the first
argument is `i + 1`.  When a read is `undefined` the sum is `NaN`, and both
`NaN & 0xff` and `NaN >> 8` are `0`. -/
def sumLoop : Nat → SumState → SumState
  | 0, s => s
  | i + 1, s =>
    match s.a[i]?, s.b[i]? with
    | some x, some y =>
      let sum := x + y + s.carry
      sumLoop i { s with a := s.a.set i (sum % 256), carry := sum / 256 }
    | _, _ => sumLoop i { s with a := s.a.set i 0, carry := 0 }

/-- The function `sumPrivateKeys (a, b)` on two distinct buffers: the final
contents of `a`, the final contents of `b`, and the returned boolean
`carry > 0`. -/
def sumPrivateKeys (a b : List Nat) : List Nat × List Nat × Bool :=
  let s := sumLoop 32 { a := a, b := b, carry := 0 }
  (s.a, s.b, decide (s.carry > 0))

/-- The value assigned to `privateKey[i]` in `subtractFromPrivateKey`,
`diff < 0 ? diff + 256 : diff`, before the typed-array store. -/
def subtractAssigned (diff : Int) : Int :=
  if diff < 0 then diff + 256 else diff

/-- The store of a number into a `Uint8Array` element (reduction modulo 256). -/
def toUint8 (x : Int) : Nat :=
  (x % 256).toNat

/-- The loop of `subtractFromPrivateKey`, `for (let i = 31; i >= 0; i--)`: the
first argument is `i + 1`; the result is the buffer and the last `carry`.  A
read past the end makes `diff` a `NaN`: the store is out of range and is
dropped, and `carry` becomes `0`. -/
def subtractLoop : Nat → List Nat → Int → List Nat × Int
  | 0, privateKey, carry => (privateKey, carry)
  | i + 1, privateKey, carry =>
    match privateKey[i]? with
    | some x =>
      let diff : Int := (x : Int) - (curveOrderByte i : Int) - carry
      subtractLoop i (privateKey.set i (toUint8 (subtractAssigned diff)))
        (if diff < 0 then 1 else 0)
    | none => subtractLoop i privateKey 0

/-- The function `subtractFromPrivateKey (privateKey)`: the final contents of the
buffer. -/
def subtractFromPrivateKey (privateKey : List Nat) : List Nat :=
  (subtractLoop 32 privateKey 0).1

/-- The function `isBufferZero (buffer)`. -/
def isBufferZero (buffer : List Nat) : Bool :=
  buffer.all (fun byte => byte == 0)

/-- Lines 177 to 181 of `MemorySafeSigningKey.from`: add the first 32 bytes of
`masterKeyBuffer` into `privateKeyBuffer`, then subtract the order when the
addition overflowed or the sum is not below the order. -/
def fromAddStep (privateKeyBuffer masterKeyBuffer : List Nat) : List Nat :=
  let r := sumPrivateKeys privateKeyBuffer masterKeyBuffer
  let hasOverflow := r.2.2
  if hasOverflow || decide (compareWithCurveOrder r.1 ≥ 0) then
    subtractFromPrivateKey r.1
  else r.1

/-! ## Library primitives and JavaScript helpers -/

/-- Failures raised by the code. -/
inductive Error where
  /-- Thrown by `assertArgument` (`INVALID_ARGUMENT`), with its message. -/
  | invalidArgument (message : String)
  /-- Thrown by `assert (..., "UNSUPPORTED_OPERATION")`, with its message. -/
  | unsupportedOperation (message : String)
  /-- Thrown by `throw new Error (message)`. -/
  | error (message : String)
  /-- A property read on `null`. -/
  | typeError
  /-- Thrown by `TypedArray.prototype.set` when the source does not fit. -/
  | rangeError
  /-- Thrown by a library primitive that is given `null` where it expects a
  byte array. -/
  | nullArgument
  /-- A read of an identifier that is not bound in the module. -/
  | referenceError (identifier : String)
  /-- Thrown by the curve library on a private scalar that is `0` or not below
  the group order. -/
  | invalidPrivateKey
  /-- Thrown by the base class `HDNodeWallet` when the guard it is given is not
  its own private guard. -/
  | privateConstructor
  deriving DecidableEq, Repr

/-- The primitives of the imported libraries. -/
structure Primitives where
  /-- HMAC-SHA512 of a message under a key (`computeHmac ("sha512", key, data)`,
  `hmac (sha512, key, data)`). -/
  computeHmac : List Nat → List Nat → List Nat
  /-- Serialised public key of a private scalar in `[1, n-1]`, compressed when
  the flag is set (`SigningKey.computePublicKey`, `secp256k1.getPublicKey`).  On
  another scalar the library throws: the constructors and the getters test
  `validScalar` before they use this function. -/
  getPublicKey : List Nat → Bool → List Nat
  /-- Fingerprint that the base class derives from a compressed public key. -/
  fingerprint : List Nat → String
  /-- Whether the base class `HDNodeWallet` takes the object `_guard` of
  `hd-node-wallet.js` for its private guard.  The library compares the guard
  with an object of its own, so for the module as it stands this is `false`. -/
  acceptsGuard : Bool

/-- The scalars for which the curve library has a public key: `1` to `n - 1`. -/
def validScalar (key : List Nat) : Bool :=
  decide (1 ≤ beValue key ∧ beValue key < CURVE_n)

/-- The method `TypedArray.prototype.set (source, offset = 0)`. -/
def typedArraySet (target source : List Nat) (offset : Nat := 0) : Except Error (List Nat) :=
  if source.length + offset > target.length then .error .rangeError
  else .ok (target.take offset ++ source ++ target.drop (offset + source.length))

/-- The conversion `ToInt32` that the bitwise operators apply to a number. -/
def toInt32 (x : Nat) : Int :=
  if x % 2 ^ 32 ≥ 2 ^ 31 then ((x % 2 ^ 32 : Nat) : Int) - 2 ^ 32 else ((x % 2 ^ 32 : Nat) : Int)

/-- The expression `(value >> shift) & 0xff`: a sign-propagating shift of the
32-bit integer (floor division by `2 ^ shift`), then the low eight bits. -/
def shiftRightByte (value shift : Nat) : Nat :=
  ((toInt32 value / 2 ^ shift) % 256).toNat

/-- The function `encodeUInt32BE (value)`; `none` is `NaN`, which every shift
turns into `0`. -/
def encodeUInt32BE (value : Option Nat) : List Nat :=
  match value with
  | some v => [shiftRightByte v 24, shiftRightByte v 16, shiftRightByte v 8, shiftRightByte v 0]
  | none => [0, 0, 0, 0]

/-! ## `MemorySafeSigningKey` -/

/-- The constant `MASTER_KEY_SECRET = Buffer.from ('Bitcoin seed')`. -/
def MASTER_KEY_SECRET : List Nat :=
  "Bitcoin seed".toUTF8.data.toList.map UInt8.toNat

/-- The constant `DERIVATION_PATH_BUFFER_OFFSET`. -/
def DERIVATION_PATH_BUFFER_OFFSET : Nat := 0x80000000

/-- A `MemorySafeSigningKey`: its private field `#privateKeyBuffer`, `none` once
it is `null`. -/
structure MemorySafeSigningKey where
  privateKeyBuffer : Option (List Nat)
  deriving DecidableEq, Repr

/-- The constructor of `MemorySafeSigningKey` on a `Uint8Array`. -/
def MemorySafeSigningKey.new (privateKeyBuffer : List Nat) :
    Except Error MemorySafeSigningKey :=
  if privateKeyBuffer.length ≠ 32 then
    .error (.error "The private key must be 32 bytes long.")
  else .ok { privateKeyBuffer := some privateKeyBuffer }

/-- The buffers of `MemorySafeSigningKey.from`; `chainCode` is the view
`masterKeyBuffer.subarray (32)`. -/
structure FromState where
  privateKeyBuffer : List Nat
  masterKeyBuffer : List Nat
  derivationPathBuffer : List Nat
  deriving DecidableEq, Repr

/-- Lines 161 to 169 of `MemorySafeSigningKey.from`: the loop body up to the
HMAC call, which fills `derivationPathBuffer`.  The index is `none` when the
path segment converts to `NaN`.  The public key is taken as the primitive gives
it: the statements on this function are about scalars that have one. -/
def fromFillPath (P : Primitives) (index : Option Nat) (s : FromState) :
    Except Error FromState := do
  let filled ←
    if index.any (fun v => decide (v ≥ DERIVATION_PATH_BUFFER_OFFSET)) then
      typedArraySet (s.derivationPathBuffer.set 0 0x0) s.privateKeyBuffer 1
    else
      typedArraySet s.derivationPathBuffer (P.getPublicKey s.privateKeyBuffer true)
  let withIndex ← typedArraySet filled (encodeUInt32BE index) 33
  pure { s with derivationPathBuffer := withIndex }

/-- One iteration of the loop of `MemorySafeSigningKey.from` (lines 161 to 187).
`chainCode` is the view `masterKeyBuffer.subarray (32)`: the key of the HMAC is
the second half of `masterKeyBuffer`, and the last statement copies that half
onto itself.  A `continue` ends the iteration with the buffers as they are. -/
def fromStep (P : Primitives) (index : Option Nat) (s : FromState) :
    Except Error FromState := do
  let s1 ← fromFillPath P index s
  let I := P.computeHmac (s1.masterKeyBuffer.drop 32) s1.derivationPathBuffer
  let masterKeyBuffer ← typedArraySet s1.masterKeyBuffer I
  let s2 : FromState := { s1 with masterKeyBuffer := masterKeyBuffer }
  if compareWithCurveOrder s2.masterKeyBuffer ≥ 0 then pure s2
  else
    let s3 : FromState :=
      { s2 with privateKeyBuffer := fromAddStep s2.privateKeyBuffer s2.masterKeyBuffer }
    if isBufferZero s3.privateKeyBuffer then pure s3
    else do
      let copied ← typedArraySet s3.masterKeyBuffer (s3.masterKeyBuffer.drop 32) 32
      pure { s3 with masterKeyBuffer := copied }

/-- The static method `MemorySafeSigningKey.from (seed, path)` after the path has
been split and converted to the numbers `indexes`: the key that is returned and
the final contents of the three buffers. -/
def MemorySafeSigningKey.fromIndexes (P : Primitives) (seed : List Nat)
    (indexes : List (Option Nat)) : Except Error (MemorySafeSigningKey × FromState) := do
  let masterKeyBuffer ←
    typedArraySet (List.replicate 64 0) (P.computeHmac MASTER_KEY_SECRET seed)
  let privateKeyBuffer ← typedArraySet (List.replicate 32 0) (masterKeyBuffer.take 32)
  let s1 : FromState :=
    { privateKeyBuffer := privateKeyBuffer, masterKeyBuffer := masterKeyBuffer,
      derivationPathBuffer := List.replicate 37 0 }
  let s2 ← indexes.foldlM (fun s index => fromStep P index s) s1
  let s3 : FromState :=
    { s2 with masterKeyBuffer := List.replicate s2.masterKeyBuffer.length 0,
              derivationPathBuffer := List.replicate s2.derivationPathBuffer.length 0 }
  let key ← MemorySafeSigningKey.new s3.privateKeyBuffer
  pure (key, s3)

/-! ## `MemorySafeHDNodeWallet` -/

/-- The constant `MasterSecret`. -/
def MasterSecret : List Nat := [66, 105, 116, 99, 111, 105, 110, 32, 115, 101, 101, 100]

/-- The constant `HardenedBit`. -/
def HardenedBit : Nat := 0x80000000

/-- The constant `N`, the bytes of the hexadecimal string
`fffffffffffffffffffffffffffffffebaaedce6af48a03bbfd25e8cd0364141`. -/
def N : List Nat :=
  [0xff, 0xff, 0xff, 0xff, 0xff, 0xff, 0xff, 0xff, 0xff, 0xff, 0xff, 0xff, 0xff, 0xff, 0xff, 0xfe,
   0xba, 0xae, 0xdc, 0xe6, 0xaf, 0x48, 0xa0, 0x3b, 0xbf, 0xd2, 0x5e, 0x8c, 0xd0, 0x36, 0x41, 0x41]

/-- The test `index & HardenedBit` on a number: bit 31 of its 32-bit form. -/
def isHardened (index : Nat) : Bool :=
  Nat.land (index % 2 ^ 32) HardenedBit != 0

/-- The first part of `ser_I`: the 37-byte array `data` that is passed to the
HMAC.  `privateKeyBuffer` is `none` when the key has been disposed. -/
def serIData (index : Nat) (publicKey : List Nat) (privateKeyBuffer : Option (List Nat)) :
    Except Error (List Nat) := do
  let data := List.replicate 37 0
  let data ←
    if isHardened index then
      match privateKeyBuffer with
      | none => throw (.unsupportedOperation "cannot derive child of neutered node")
      | some key => typedArraySet data key 1
    else typedArraySet data publicKey
  pure ([24, 16, 8, 0].foldl
    (fun d i => d.set (33 + i / 8) (shiftRightByte index (24 - i))) data)

/-- The function `ser_I (index, chainCode, publicKey, privateKeyBuffer)`: the
pair `(IL, IR)`. -/
def ser_I (P : Primitives) (index : Nat) (chainCode publicKey : List Nat)
    (privateKeyBuffer : Option (List Nat)) : Except Error (List Nat × List Nat) := do
  let data ← serIData index publicKey privateKeyBuffer
  let I := P.computeHmac chainCode data
  pure (I.take 32, I.drop 32)

/-- A `MemorySafeHDNodeWallet`: its signing key and the properties of the base
class that the code reads.  A chain code, which the code carries as the
hexadecimal string `hexlify (bytes)`, is represented by its bytes. -/
structure MemorySafeHDNodeWallet where
  signingKey : MemorySafeSigningKey
  parentFingerprint : String
  chainCode : List Nat
  path : Option String
  index : Nat
  depth : Nat
  publicKey : List Nat
  fingerprint : String
  deriving DecidableEq, Repr

/-- The constructor of `MemorySafeHDNodeWallet`, which only calls the base
class with the object `_guard` of the module.  The base class first reads the
public key of the signing key, which fails on a scalar that is `0` or not below
the order, then tests the guard; after that the arguments are recorded,
`publicKey` is the compressed public key of the signing key and `fingerprint`
is derived from it. -/
def MemorySafeHDNodeWallet.new (P : Primitives) (signingKey : MemorySafeSigningKey)
    (parentFingerprint : String) (chainCode : List Nat) (path : Option String)
    (index depth : Nat) : Except Error MemorySafeHDNodeWallet :=
  match signingKey.privateKeyBuffer with
  | none => .error (.invalidArgument "invalid BytesLike value")
  | some key =>
    if validScalar key = false then .error .invalidPrivateKey
    else if P.acceptsGuard = false then .error .privateConstructor
    else
      .ok { signingKey := signingKey, parentFingerprint := parentFingerprint,
            chainCode := chainCode, path := path, index := index, depth := depth,
            publicKey := P.getPublicKey key true,
            fingerprint := P.fingerprint (P.getPublicKey key true) }

/-- The byte stored at position `i` by the loop of `deriveChild`,
`buffer[i] = IL[i] + this.privateKeyBuffer[i] % N[i]`: the remainder binds
tighter than the sum, and the store reduces modulo 256.  No byte of `N` is
zero, so the remainder is the remainder of natural numbers; a read past the
end makes the value `NaN`, stored as `0`. -/
def childByte (IL privateKeyBuffer : List Nat) (i : Nat) : Nat :=
  match IL[i]?, privateKeyBuffer[i]?, N[i]? with
  | some x, some y, some m => (x + y % m) % 256
  | _, _, _ => 0

/-- The loop of `deriveChild` over a fresh `Uint8Array (32)`. -/
def childBuffer (IL privateKeyBuffer : List Nat) : List Nat :=
  (List.range 32).foldl (fun buffer i => buffer.set i (childByte IL privateKeyBuffer i))
    (List.replicate 32 0)

/-- The method `deriveChild (_index)`. -/
def MemorySafeHDNodeWallet.deriveChild (P : Primitives) (self : MemorySafeHDNodeWallet)
    (index : Nat) : Except Error MemorySafeHDNodeWallet := do
  if ¬ index ≤ 0xffffffff then throw (.invalidArgument "invalid index")
  let path : Option String :=
    match self.path with
    | some p =>
      if p ≠ "" then
        some (p ++ "/" ++ toString (Nat.land (index % 2 ^ 32) 0x7fffffff) ++
          (if isHardened index then "'" else ""))
      else some p
    | none => none
  let (IL, IR) ← ser_I P index self.chainCode self.publicKey self.signingKey.privateKeyBuffer
  let buffer ←
    match self.signingKey.privateKeyBuffer with
    | none => throw Error.typeError
    | some key => pure (childBuffer IL key)
  let ki ← MemorySafeSigningKey.new buffer
  MemorySafeHDNodeWallet.new P ki self.fingerprint IR path index (self.depth + 1)

/-- The method `fromSeed (seed)` on a byte sequence, through `#fromSeed (seed, null)`. -/
def MemorySafeHDNodeWallet.fromSeed (P : Primitives) (seed : List Nat) :
    Except Error MemorySafeHDNodeWallet := do
  if ¬ (seed.length ≥ 16 ∧ seed.length ≤ 64) then throw (.invalidArgument "invalid seed")
  let I := P.computeHmac MasterSecret seed
  let signingKey ← MemorySafeSigningKey.new (I.take 32)
  MemorySafeHDNodeWallet.new P signingKey "0x00000000" (I.drop 32) (some "m") 0 0

/-! ## Methods of `MemorySafeSigningKey` -/

/-- The primitives of the curve library that the signing methods call. -/
structure CurvePrimitives where
  /-- The call `secp256k1.sign (digest, key, { lowS: true })`: the numbers `r`
  and `s` and the recovery bit. -/
  sign : List Nat → List Nat → Nat × Nat × Bool
  /-- The call `SigningKey.computePublicKey (other)` on the bytes of a
  counterparty: the serialised key, or the failure on bytes that are no key. -/
  computePublicKey : List Nat → Except Error (List Nat)

/-- The result of `Signature.from ({ r, s, v })`. -/
structure Signature where
  r : Nat
  s : Nat
  v : Nat
  deriving DecidableEq, Repr

/-- The getter `publicKey`, `SigningKey.computePublicKey (this.#privateKeyBuffer)`;
the library rejects `null`, which is no `BytesLike` value. -/
def MemorySafeSigningKey.publicKey (P : Primitives) (self : MemorySafeSigningKey) :
    Except Error (List Nat) :=
  match self.privateKeyBuffer with
  | none => .error (.invalidArgument "invalid BytesLike value")
  | some key =>
    if validScalar key = false then .error .invalidPrivateKey
    else .ok (P.getPublicKey key false)

/-- The getter `compressedPublicKey`. -/
def MemorySafeSigningKey.compressedPublicKey (P : Primitives) (self : MemorySafeSigningKey) :
    Except Error (List Nat) :=
  match self.privateKeyBuffer with
  | none => .error (.invalidArgument "invalid BytesLike value")
  | some key =>
    if validScalar key = false then .error .invalidPrivateKey
    else .ok (P.getPublicKey key true)

/-- The getter `publicKeyBuffer`, `secp256k1.getPublicKey (this.#privateKeyBuffer, false)`. -/
def MemorySafeSigningKey.publicKeyBuffer (P : Primitives) (self : MemorySafeSigningKey) :
    Except Error (List Nat) :=
  match self.privateKeyBuffer with
  | none => .error .nullArgument
  | some key =>
    if validScalar key = false then .error .invalidPrivateKey
    else .ok (P.getPublicKey key false)

/-- The method `sign (digest)` on the bytes of a digest.  The curve library
refuses a scalar that is `0` or not below the order; the numbers that the
signing primitive returns fit the 32-byte fields of the signature. -/
def MemorySafeSigningKey.sign (C : CurvePrimitives) (self : MemorySafeSigningKey)
    (digest : List Nat) : Except Error Signature := do
  if ¬ digest.length = 32 then throw (.invalidArgument "invalid digest length")
  match self.privateKeyBuffer with
  | none => throw Error.nullArgument
  | some key =>
    if validScalar key = false then throw Error.invalidPrivateKey
    let sig := C.sign digest key
    pure { r := sig.1, s := sig.2.1, v := if sig.2.2 then 0x1c else 0x1b }

/-- The method `computeSharedSecret (other)`.  The module imports neither
`hexlify` nor `getBytes`: after the first statement, the call of `hexlify`
reads an unbound identifier, before its argument is evaluated. -/
def MemorySafeSigningKey.computeSharedSecret (C : CurvePrimitives)
    (_self : MemorySafeSigningKey) (other : List Nat) : Except Error (List Nat) := do
  let _pubKey ← C.computePublicKey other
  throw (Error.referenceError "hexlify")

/-! ## The path argument of `MemorySafeSigningKey.from` -/

/-- The apostrophe. -/
def apostrophe : Char := Char.ofNat 39

/-- The call `path.split ('/')` on the characters of the path. -/
def splitSlash : List Char → List (List Char)
  | [] => [[]]
  | c :: cs =>
    if c = '/' then [] :: splitSlash cs
    else
      match splitSlash cs with
      | [] => [[c]]
      | segment :: rest => (c :: segment) :: rest

/-- The call `index.replace ('\'', '')`, which removes the first apostrophe. -/
def removeApostrophe : List Char → List Char
  | [] => []
  | c :: cs => if c = apostrophe then cs else c :: removeApostrophe cs

/-- The unary `+` on a path segment: the empty string gives `0`, a string of
decimal digits gives its value, and a string with another character of the path
notation (a letter such as `m`, an apostrophe) gives `NaN`, which is `none`. -/
def toNumber (segment : List Char) : Option Nat :=
  if segment.all Char.isDigit then
    some (segment.foldl (fun acc c => acc * 10 + (c.toNat - 48)) 0)
  else none

/-- The array `indexes` of `MemorySafeSigningKey.from`,
`path.split ('/').map (index => +index.replace ('\'', ''))`. -/
def pathIndexes (path : String) : List (Option Nat) :=
  (splitSlash path.toList).map (fun index => toNumber (removeApostrophe index))

/-- The static method `MemorySafeSigningKey.from (seed, path)`. -/
def MemorySafeSigningKey.fromPath (P : Primitives) (seed : List Nat) (path : String) :
    Except Error (MemorySafeSigningKey × FromState) :=
  MemorySafeSigningKey.fromIndexes P seed (pathIndexes path)

/-! ## Objects and memory

The definitions above pass the contents of the byte arrays.  The definitions of
this section keep the arrays in a memory and pass references to them, as the
code does: the constructor of `MemorySafeSigningKey` stores the array that it is
given, and `dispose` writes into that array. -/

/-- The `Uint8Array` objects allocated so far; a reference is a position. -/
structure Memory where
  cells : List (List Nat)
  deriving DecidableEq, Repr

/-- The contents of the array behind a reference. -/
def Memory.read (mem : Memory) (ref : Nat) : List Nat :=
  (mem.cells[ref]?).getD []

/-- The memory after the contents of an array have been replaced. -/
def Memory.write (mem : Memory) (ref : Nat) (bytes : List Nat) : Memory :=
  { cells := mem.cells.set ref bytes }

/-- The expression `new Uint8Array (length)`, and likewise an array that a
library call returns: the memory with the new array, and its reference. -/
def Memory.alloc (mem : Memory) (bytes : List Nat) : Memory × Nat :=
  ({ cells := mem.cells ++ [bytes] }, mem.cells.length)

/-- The call `sodium_memzero (buffer)`, which fills the array with zeros; the
library rejects `null`. -/
def sodium_memzero (mem : Memory) (buffer : Option Nat) : Except Error Memory :=
  match buffer with
  | none => .error .nullArgument
  | some ref => .ok (mem.write ref (List.replicate (mem.read ref).length 0))

/-- A `MemorySafeSigningKey` object: the field `#privateKeyBuffer` is a reference
to an array, or `null`. -/
structure SigningKeyObject where
  privateKeyBuffer : Option Nat
  deriving DecidableEq, Repr

/-- The key as the methods see it: the contents of the referenced array. -/
def SigningKeyObject.contents (mem : Memory) (self : SigningKeyObject) : MemorySafeSigningKey :=
  { privateKeyBuffer := self.privateKeyBuffer.map mem.read }

/-- The constructor of `MemorySafeSigningKey`: after the length check, the
reference that was passed is stored. -/
def SigningKeyObject.new (mem : Memory) (privateKeyBuffer : Nat) :
    Except Error SigningKeyObject :=
  if (mem.read privateKeyBuffer).length ≠ 32 then
    .error (.error "The private key must be 32 bytes long.")
  else .ok { privateKeyBuffer := some privateKeyBuffer }

/-- The method `dispose ()` of `MemorySafeSigningKey`. -/
def SigningKeyObject.dispose (mem : Memory) (self : SigningKeyObject) :
    Except Error (Memory × SigningKeyObject) := do
  let mem ← sodium_memzero mem self.privateKeyBuffer
  pure (mem, { self with privateKeyBuffer := none })

/-- A `MemorySafeHDNodeWallet` object: its signing key object and the read-only
properties of the base class. -/
structure HDNodeObject where
  signingKey : SigningKeyObject
  parentFingerprint : String
  chainCode : List Nat
  path : Option String
  index : Nat
  depth : Nat
  publicKey : List Nat
  fingerprint : String
  deriving DecidableEq, Repr

/-- The node as `deriveChild` sees it. -/
def HDNodeObject.contents (mem : Memory) (self : HDNodeObject) : MemorySafeHDNodeWallet :=
  { signingKey := self.signingKey.contents mem, parentFingerprint := self.parentFingerprint,
    chainCode := self.chainCode, path := self.path, index := self.index, depth := self.depth,
    publicKey := self.publicKey, fingerprint := self.fingerprint }

/-- The constructor of `MemorySafeHDNodeWallet` on a signing key object, with
the two failures of the base class. -/
def HDNodeObject.new (P : Primitives) (mem : Memory) (signingKey : SigningKeyObject)
    (parentFingerprint : String) (chainCode : List Nat) (path : Option String)
    (index depth : Nat) : Except Error HDNodeObject :=
  match signingKey.privateKeyBuffer with
  | none => .error (.invalidArgument "invalid BytesLike value")
  | some ref =>
    if validScalar (mem.read ref) = false then .error .invalidPrivateKey
    else if P.acceptsGuard = false then .error .privateConstructor
    else
      .ok { signingKey := signingKey, parentFingerprint := parentFingerprint,
            chainCode := chainCode, path := path, index := index, depth := depth,
            publicKey := P.getPublicKey (mem.read ref) true,
            fingerprint := P.fingerprint (P.getPublicKey (mem.read ref) true) }

/-- The method `dispose ()` of `MemorySafeHDNodeWallet`, `this.signingKey.dispose ()`. -/
def HDNodeObject.dispose (mem : Memory) (self : HDNodeObject) :
    Except Error (Memory × HDNodeObject) := do
  let (mem, signingKey) ← self.signingKey.dispose mem
  pure (mem, { self with signingKey := signingKey })

/-- The method `deriveChild (_index)` with its arrays in memory.  It allocates,
in this order, `data` (filled by `ser_I`), `I`, the copies `IL = I.slice (0, 32)`
and `IR = I.slice (32)`, and `buffer` (filled by the loop); it writes to no
other array. -/
def HDNodeObject.deriveChild (P : Primitives) (mem : Memory) (self : HDNodeObject)
    (index : Nat) : Except Error (Memory × HDNodeObject) := do
  if ¬ index ≤ 0xffffffff then throw (.invalidArgument "invalid index")
  let path : Option String :=
    match self.path with
    | some p =>
      if p ≠ "" then
        some (p ++ "/" ++ toString (Nat.land (index % 2 ^ 32) 0x7fffffff) ++
          (if isHardened index then "'" else ""))
      else some p
    | none => none
  let (mem, data) := mem.alloc (List.replicate 37 0)
  let filled ← serIData index self.publicKey (self.signingKey.privateKeyBuffer.map mem.read)
  let mem := mem.write data filled
  let (mem, I) := mem.alloc (P.computeHmac self.chainCode (mem.read data))
  let (mem, IL) := mem.alloc ((mem.read I).take 32)
  let (mem, IR) := mem.alloc ((mem.read I).drop 32)
  let (mem, buffer) := mem.alloc (List.replicate 32 0)
  let mem ←
    match self.signingKey.privateKeyBuffer with
    | none => throw Error.typeError
    | some key => pure (mem.write buffer (childBuffer (mem.read IL) (mem.read key)))
  let ki ← SigningKeyObject.new mem buffer
  let child ← HDNodeObject.new P mem ki self.fingerprint (mem.read IR) path index
    (self.depth + 1)
  pure (mem, child)

/-- The method `fromSeed (seed)` with its arrays in memory.  It allocates, in
this order, `I`, the copy `I.slice (0, 32)` that the signing key stores, and the
copy `I.slice (32)`; it writes to no other array. -/
def HDNodeObject.fromSeed (P : Primitives) (mem : Memory) (seed : List Nat) :
    Except Error (Memory × HDNodeObject) := do
  if ¬ (seed.length ≥ 16 ∧ seed.length ≤ 64) then throw (.invalidArgument "invalid seed")
  let (mem, I) := mem.alloc (P.computeHmac MasterSecret seed)
  let (mem, key) := mem.alloc ((mem.read I).take 32)
  let signingKey ← SigningKeyObject.new mem key
  let (mem, IR) := mem.alloc ((mem.read I).drop 32)
  let node ← HDNodeObject.new P mem signingKey "0x00000000" (mem.read IR) (some "m") 0 0
  pure (mem, node)

/-! ## The identifiers of `memory-safe-signing-key.js` -/

/-- The names that the module binds at its top level: the imports of lines 17 to
24, the constants, the functions and the class. -/
def moduleBindings : List String :=
  ["hmac", "sha256", "sha512", "secp256k1",
   "assertArgument", "dataLength", "getBytesCopy", "Signature", "SigningKey", "toBeHex",
   "sodium_memzero",
   "NULL", "MASTER_KEY_SECRET", "DERIVATION_PATH_BUFFER_OFFSET",
   "encodeUInt32BE", "compareWithCurveOrder", "sumPrivateKeys", "subtractFromPrivateKey",
   "isBufferZero", "MemorySafeSigningKey"]

/-- The identifiers that the body of `computeSharedSecret` reads and does not
declare itself, in the order of their evaluation. -/
def computeSharedSecretIdentifiers : List String :=
  ["SigningKey", "hexlify", "secp256k1", "getBytes"]

/-! ## Auxiliary definitions for the statements -/

/-- The 32 bytes of the group order, most significant first. -/
def orderBytes : List Nat := (List.range 32).map curveOrderByte

/-- Three-way comparison of two numbers, with the result convention of
`compareWithCurveOrder`. -/
def cmpNat (v n : Nat) : Int :=
  if v > n then 1 else if v < n then -1 else 0

/-- Every entry is a byte. -/
def IsBytes (bs : List Nat) : Prop := ∀ x ∈ bs, x < 256

instance (bs : List Nat) : Decidable (IsBytes bs) :=
  inferInstanceAs (Decidable (∀ x ∈ bs, x < 256))

/-! ## Sample inputs -/

/-- A 40-byte buffer of sevens. -/
def sampleBuffer : List Nat := List.replicate 40 7

/-- A 32-byte scalar, `0x50` repeated. -/
def sampleScalar : List Nat := List.replicate 32 0x50

/-- A 64-byte HMAC output, `0xc0` repeated. -/
def sampleOutput : List Nat := List.replicate 64 0xc0

/-- Primitives whose HMAC returns 64 zero bytes. -/
def zeroPrimitives : Primitives :=
  { computeHmac := fun _ _ => List.replicate 64 0,
    getPublicKey := fun _ _ => List.replicate 33 2,
    fingerprint := fun _ => "0x00000000",
    acceptsGuard := true }

/-- Primitives whose HMAC returns the bytes of the group order followed by 32
zero bytes. -/
def orderPrimitives : Primitives :=
  { computeHmac := fun _ _ => N ++ List.replicate 32 0,
    getPublicKey := fun _ _ => List.replicate 33 2,
    fingerprint := fun _ => "0x00000000",
    acceptsGuard := true }

/-- A live node whose private scalar is `1`. -/
def unitNode : MemorySafeHDNodeWallet :=
  { signingKey := { privateKeyBuffer := some (List.replicate 31 0 ++ [1]) },
    parentFingerprint := "0x00000000", chainCode := List.replicate 32 0,
    path := some "m", index := 0, depth := 0,
    publicKey := List.replicate 33 2, fingerprint := "0x00000000" }

/-- The seed of test vector 1 of BIP32, `000102030405060708090a0b0c0d0e0f`. -/
def vectorSeed : List Nat := List.range 16

/-- The value of HMAC-SHA512 under the key `Bitcoin seed` on `vectorSeed`: the
master key `e8f32e72...c8436b35` and chain code `873dff81...ed37d508` of test
vector 1. -/
def vectorMaster : List Nat :=
  [232, 243, 46, 114, 61, 236, 244, 5, 26, 239, 172, 142, 44, 147, 201, 197,
   178, 20, 49, 56, 23, 205, 176, 26, 20, 148, 185, 23, 200, 67, 107, 53,
   135, 61, 255, 129, 192, 47, 82, 86, 35, 253, 31, 229, 22, 126, 172, 58,
   85, 160, 73, 222, 61, 49, 75, 180, 46, 226, 39, 255, 237, 55, 213, 8]

/-- The value of HMAC-SHA512 under the chain code of `vectorMaster` on the
hardened message `00 || master key || 80000000`. -/
def vectorChild : List Nat :=
  [4, 191, 178, 221, 96, 250, 137, 33, 194, 164, 8, 94, 193, 85, 7, 169,
   33, 244, 156, 220, 131, 159, 39, 240, 242, 128, 233, 193, 73, 93, 68, 181,
   71, 253, 172, 189, 15, 16, 151, 4, 59, 120, 198, 60, 32, 195, 78, 244,
   237, 154, 17, 29, 152, 0, 71, 173, 22, 40, 44, 122, 230, 35, 97, 65]

/-- Primitives that agree with HMAC-SHA512 on the two messages of the
derivation `m/0'` of test vector 1.  The public key plays no part in a hardened
derivation. -/
def vectorPrimitives : Primitives :=
  { computeHmac := fun key data =>
      if key = MasterSecret ∧ data = vectorSeed then vectorMaster
      else if key = vectorMaster.drop 32 ∧
          data = [0] ++ vectorMaster.take 32 ++ [0x80, 0, 0, 0] then vectorChild
      else List.replicate 64 0,
    getPublicKey := fun _ _ => List.replicate 33 2,
    fingerprint := fun _ => "0x00000000",
    acceptsGuard := true }

/-- A memory with one array, the 32-byte scalar `sampleScalar`. -/
def sampleMemory : Memory := { cells := [sampleScalar] }

/-- The signing key object that holds the array of `sampleMemory`. -/
def sampleKey : SigningKeyObject := { privateKeyBuffer := some 0 }

/-- A node object that owns `sampleKey`. -/
def sampleNode : HDNodeObject :=
  { signingKey := sampleKey, parentFingerprint := "0x00000000",
    chainCode := List.replicate 32 0, path := some "m", index := 0, depth := 0,
    publicKey := List.replicate 33 2, fingerprint := "0x00000000" }

/-- Curve primitives with constant results. -/
def sampleCurve : CurvePrimitives :=
  { sign := fun _ _ => (1, 1, false),
    computePublicKey := fun other => .ok other }

/-! ## The BIP32 reading of a path, for comparison -/

/-- The reading of one path segment in BIP32 notation: `k` is the index `k`, and
`k` followed by an apostrophe is the hardened index `k + 0x80000000`. -/
def bip32Index (segment : List Char) : Option Nat :=
  if segment.getLast? = some apostrophe then
    (toNumber segment.dropLast).map (fun k => k + 0x80000000)
  else toNumber segment

/-- The reading of a path in BIP32 notation: a leading `m` stands for the master
key and is no derivation step; the other segments are read by `bip32Index`. -/
def bip32Indexes (path : String) : List (Option Nat) :=
  match splitSlash path.toList with
  | first :: rest =>
    if first = ['m'] then rest.map bip32Index else (first :: rest).map bip32Index
  | [] => []

/-! ## Values of test vector 1 for the path statements -/

/-- The compressed public key `0339a360...8ff49c85c2` of the master key of test
vector 1. -/
def vectorMasterPublic : List Nat :=
  [3, 57, 163, 96, 19, 48, 21, 151, 218, 239, 65, 251, 229, 147, 160, 44, 197,
   19, 208, 181, 85, 39, 236, 45, 241, 5, 14, 46, 143, 244, 156, 133, 194]

/-- The value of HMAC-SHA512 under the chain code of `vectorMaster` on the
message `vectorMasterPublic || 00000000` of the normal child `0`. -/
def vectorNormal : List Nat :=
  [101, 57, 174, 128, 179, 97, 140, 34, 245, 248, 204, 65, 113, 208, 72, 53,
   87, 11, 218, 141, 177, 27, 91, 241, 119, 154, 250, 231, 236, 124, 121, 195,
   211, 35, 241, 190, 90, 243, 154, 45, 47, 8, 245, 232, 246, 100, 99, 56,
   73, 101, 61, 190, 50, 152, 2, 233, 132, 124, 252, 133, 248, 215, 181, 42]

/-- The scalar `4e2cdcf2...e489a3b7` of the normal child `m/0` of test vector 1. -/
def vectorNormalKey : List Nat :=
  [78, 44, 220, 242, 241, 78, 128, 40, 16, 232, 120, 207, 158, 100, 17, 252,
   78, 113, 46, 223, 25, 160, 107, 207, 204, 93, 85, 114, 228, 137, 163, 183]

/-- The compressed public key `027c4b09...2be3d13c` of `vectorNormalKey`. -/
def vectorNormalPublic : List Nat :=
  [2, 124, 75, 9, 255, 185, 133, 194, 152, 175, 231, 229, 129, 50, 102, 203, 252,
   183, 120, 11, 72, 10, 194, 148, 176, 180, 61, 194, 31, 43, 227, 209, 60]

/-- The value of HMAC-SHA512 under the chain code of `vectorNormal` on the
message `vectorNormalPublic || 00000000`. -/
def vectorNormalNormal : List Nat :=
  [164, 64, 20, 60, 152, 93, 17, 134, 218, 164, 250, 85, 3, 202, 121, 164,
   50, 17, 110, 210, 66, 241, 217, 113, 126, 169, 229, 25, 79, 153, 126, 243,
   7, 204, 218, 74, 253, 111, 231, 47, 27, 191, 175, 209, 160, 3, 247, 179,
   96, 130, 55, 113, 158, 144, 239, 130, 201, 87, 245, 213, 194, 104, 42, 241]

/-- Primitives that agree with HMAC-SHA512 and with the public key of secp256k1
on the values that the derivations `m/0'`, `m/0` and `m/0/0` of test vector 1
use. -/
def pathPrimitives : Primitives :=
  { computeHmac := fun key data =>
      if key = MASTER_KEY_SECRET ∧ data = vectorSeed then vectorMaster
      else if key = vectorMaster.drop 32 ∧
          data = [0] ++ vectorMaster.take 32 ++ [0x80, 0, 0, 0] then vectorChild
      else if key = vectorMaster.drop 32 ∧
          data = vectorMasterPublic ++ [0, 0, 0, 0] then vectorNormal
      else if key = vectorNormal.drop 32 ∧
          data = vectorNormalPublic ++ [0, 0, 0, 0] then vectorNormalNormal
      else List.replicate 64 0,
    getPublicKey := fun key _ =>
      if key = vectorMaster.take 32 then vectorMasterPublic
      else if key = vectorNormalKey then vectorNormalPublic
      else List.replicate 33 2,
    fingerprint := fun _ => "0x00000000",
    acceptsGuard := true }

/-! ## Sample inputs for the statements on skipped steps and scratch arrays -/

/-- The bytes of `n - 1`, for the group order `n`. -/
def orderMinusOne : List Nat := N.dropLast ++ [0x40]

/-- Primitives whose HMAC returns the scalar `1` and a chain code of ones under
the key `Bitcoin seed`, and the bytes of `n - 1` and a chain code of sevens under
every other key. -/
def zeroSumPrimitives : Primitives :=
  { computeHmac := fun key _ =>
      if key = MASTER_KEY_SECRET then List.replicate 31 0 ++ [1] ++ List.replicate 32 1
      else orderMinusOne ++ List.replicate 32 7,
    getPublicKey := fun _ _ => List.replicate 33 2,
    fingerprint := fun _ => "0x00000000",
    acceptsGuard := true }

/-- A state of the loop of `from`: the scalar `1`, a chain code of ones in the
second half of `masterKeyBuffer`, and a fresh `derivationPathBuffer`. -/
def skipState : FromState :=
  { privateKeyBuffer := List.replicate 31 0 ++ [1],
    masterKeyBuffer := List.replicate 64 1,
    derivationPathBuffer := List.replicate 37 0 }

/-- A memory with one array, the master key of test vector 1. -/
def vectorMemory : Memory := { cells := [vectorMaster.take 32] }

/-- The root node of test vector 1, whose signing key holds the array of
`vectorMemory`. -/
def vectorRoot : HDNodeObject :=
  { signingKey := { privateKeyBuffer := some 0 }, parentFingerprint := "0x00000000",
    chainCode := vectorMaster.drop 32, path := some "m", index := 0, depth := 0,
    publicKey := vectorMasterPublic, fingerprint := "0x00000000" }

/-- A live node whose private scalar is `2^248`: the byte `1` and 31 zero bytes. -/
def highNode : MemorySafeHDNodeWallet :=
  { signingKey := { privateKeyBuffer := some (1 :: List.replicate 31 0) },
    parentFingerprint := "0x00000000", chainCode := List.replicate 32 0,
    path := some "m", index := 0, depth := 0,
    publicKey := List.replicate 33 2, fingerprint := "0x00000000" }

/-- The memory after `deriveChild (5)` on `sampleNode` with `zeroPrimitives`: the
array of the parent, then `data`, `I`, `IL`, `IR` and the scalar of the child. -/
def sampleMemoryAfter : Memory :=
  { cells := [sampleScalar, List.replicate 33 2 ++ [0, 0, 0, 5], List.replicate 64 0,
      List.replicate 32 0, List.replicate 32 0,
      childBuffer (List.replicate 32 0) sampleScalar] }

/-- The child object that `deriveChild (5)` returns on `sampleNode` with
`zeroPrimitives`; its signing key holds the last array of `sampleMemoryAfter`. -/
def sampleChild : HDNodeObject :=
  { signingKey := { privateKeyBuffer := some 5 }, parentFingerprint := "0x00000000",
    chainCode := List.replicate 32 0, path := some "m/5", index := 5, depth := 1,
    publicKey := List.replicate 33 2, fingerprint := "0x00000000" }

/-! ## Lemmas on big-endian values -/

theorem beValue_append_singleton (l : List Nat) (x : Nat) :
    beValue (l ++ [x]) = beValue l * 256 + x := by
  simp [beValue, List.foldl_append]

theorem beValue_foldl_init (l : List Nat) (c : Nat) :
    l.foldl (fun acc b => acc * 256 + b) c = c * 256 ^ l.length + beValue l := by
  induction l generalizing c with
  | nil => simp [beValue]
  | cons x l ih =>
    simp only [List.foldl_cons, List.length_cons, beValue]
    rw [ih (c * 256 + x), ih (0 * 256 + x)]
    ring

theorem beValue_cons (x : Nat) (l : List Nat) :
    beValue (x :: l) = x * 256 ^ l.length + beValue l := by
  simp only [beValue, List.foldl_cons]
  rw [beValue_foldl_init]
  simp [beValue]

theorem beValue_lt (l : List Nat) (h : IsBytes l) : beValue l < 256 ^ l.length := by
  induction l with
  | nil => simp [beValue]
  | cons x l ih =>
    rw [beValue_cons]
    have hx : x < 256 := h x (List.mem_cons_self _ _)
    have hl := ih (fun y hy => h y (List.mem_cons_of_mem _ hy))
    have hp : x * 256 ^ l.length + 256 ^ l.length ≤ 255 * 256 ^ l.length + 256 ^ l.length :=
      Nat.add_le_add_right (Nat.mul_le_mul_right _ (by omega)) _
    simp only [List.length_cons, pow_succ]
    omega

theorem beValue_take_succ (l : List Nat) (k : Nat) (hk : k < l.length) :
    beValue (l.take (k + 1)) = beValue (l.take k) * 256 + l[k] := by
  rw [List.take_succ, List.getElem?_eq_getElem hk]
  exact beValue_append_singleton _ _

theorem orderBytes_eq : orderBytes =
    [255, 255, 255, 255, 255, 255, 255, 255, 255, 255, 255, 255, 255, 255, 255, 254,
     186, 174, 220, 230, 175, 72, 160, 59, 191, 210, 94, 140, 208, 54, 65, 65] := by
  decide

theorem beValue_orderBytes : beValue orderBytes = CURVE_n := by
  rw [orderBytes_eq]; decide

theorem orderBytes_length : orderBytes.length = 32 := by simp [orderBytes]

theorem orderBytes_getElem? (i : Nat) (hi : i < 32) :
    orderBytes[i]? = some (curveOrderByte i) := by
  simp [orderBytes, List.getElem?_map, List.getElem?_range hi]

theorem curveOrderByte_lt (i : Nat) : curveOrderByte i < 256 := by
  unfold curveOrderByte
  exact Nat.lt_of_le_of_lt Nat.and_le_right (by decide)

theorem orderBytes_isBytes : IsBytes orderBytes := by
  rw [orderBytes_eq]; decide

theorem IsBytes.drop {l : List Nat} (h : IsBytes l) (k : Nat) : IsBytes (l.drop k) :=
  fun x hx => h x (List.mem_of_mem_drop hx)

theorem IsBytes.take {l : List Nat} (h : IsBytes l) (k : Nat) : IsBytes (l.take k) :=
  fun x hx => h x (List.mem_of_mem_take hx)

/-! ## `compareWithCurveOrder` is the numeric comparison -/

theorem cmpNat_step (x c r s P : Nat) (hr : r < P) (hs : s < P) :
    cmpNat (x * P + r) (c * P + s) =
      if x > c then 1 else if x < c then -1 else cmpNat r s := by
  unfold cmpNat
  rcases Nat.lt_trichotomy x c with h | h | h
  · have h1 : (x + 1) * P ≤ c * P := Nat.mul_le_mul_right _ h
    have h2 : x * P + r < c * P + s := by nlinarith
    have h3 : ¬ x > c := by omega
    have h4 : ¬ x * P + r > c * P + s := by omega
    simp [h, h2, h3, h4]
  · subst h
    have h3 : ¬ x > x := by omega
    simp
  · have h1 : (c + 1) * P ≤ x * P := Nat.mul_le_mul_right _ h
    have h2 : x * P + r > c * P + s := by nlinarith
    simp [h, h2]

theorem compareLoop_eq (buffer w : List Nat) (offset : Nat)
    (hw : ∀ i, i < 32 → buffer[offset + i]? = w[i]?) (hlen : w.length = 32)
    (hb : IsBytes w) :
    ∀ todo i, i + todo = 32 →
      compareLoop buffer offset todo i =
        cmpNat (beValue (w.drop i)) (beValue (orderBytes.drop i)) := by
  intro todo
  induction todo with
  | zero =>
    intro i hi
    have h32 : i = 32 := by omega
    subst h32
    simp [compareLoop, cmpNat, List.drop_of_length_le, hlen, orderBytes_length, beValue]
  | succ t ih =>
    intro i hi
    have hi32 : i < 32 := by omega
    have hwi : i < w.length := by omega
    have hoi : i < orderBytes.length := by rw [orderBytes_length]; omega
    have ho : orderBytes[i] = curveOrderByte i := by
      have h := orderBytes_getElem? i hi32
      rw [List.getElem?_eq_getElem hoi] at h
      exact Option.some.inj h
    have hl1 : (w.drop (i + 1)).length = t := by
      rw [List.length_drop]; omega
    have hl2 : (orderBytes.drop (i + 1)).length = t := by
      rw [List.length_drop, orderBytes_length]; omega
    have hr := beValue_lt _ (hb.drop (i + 1))
    have hs := beValue_lt _ (orderBytes_isBytes.drop (i + 1))
    rw [hl1] at hr
    rw [hl2] at hs
    rw [List.drop_eq_getElem_cons hwi, List.drop_eq_getElem_cons hoi, beValue_cons,
      beValue_cons, hl1, hl2, cmpNat_step _ _ _ _ _ hr hs, ho]
    unfold compareLoop
    rw [hw i hi32, List.getElem?_eq_getElem hwi]
    simp only []
    rw [ih (i + 1) (by omega)]

theorem compareWithCurveOrder_eq (buffer : List Nat) (offset : Nat)
    (hlen : offset + 32 ≤ buffer.length) (hb : IsBytes buffer) :
    compareWithCurveOrder buffer offset =
      cmpNat (beValue ((buffer.drop offset).take 32)) CURVE_n := by
  have h := compareLoop_eq buffer ((buffer.drop offset).take 32) offset
    (by
      intro i hi
      rw [List.getElem?_take_of_lt hi, List.getElem?_drop])
    (by rw [List.length_take, List.length_drop]; omega)
    ((hb.drop offset).take 32) 32 0 (by omega)
  rw [List.drop_zero, List.drop_zero, beValue_orderBytes] at h
  exact h

/-! ## The carry chain of `sumPrivateKeys` -/

theorem IsBytes.set {l : List Nat} (h : IsBytes l) (k v : Nat) (hv : v < 256) :
    IsBytes (l.set k v) := by
  intro x hx
  rcases List.mem_or_eq_of_mem_set hx with h1 | h1
  · exact h x h1
  · rw [h1]; exact hv

theorem getElem_of_drop_eq {l m : List Nat} {k : Nat} (h : l.drop k = m.drop k) :
    l[k]? = m[k]? := by
  have h1 : (l.drop k)[0]? = (m.drop k)[0]? := by rw [h]
  rw [List.getElem?_drop, List.getElem?_drop] at h1
  exact h1

theorem drop_succ_of_drop_eq {l m : List Nat} {k : Nat} (h : l.drop k = m.drop k) :
    l.drop (k + 1) = m.drop (k + 1) := by
  have h1 : (l.drop k).drop 1 = (m.drop k).drop 1 := by rw [h]
  rw [List.drop_drop, List.drop_drop] at h1
  exact h1

theorem take_set_self (l : List Nat) (k v : Nat) : (l.set k v).take k = l.take k := by
  apply List.ext_getElem?
  intro i
  rw [List.getElem?_take, List.getElem?_take]
  split
  · next h => rw [List.getElem?_set_ne (by omega)]
  · rfl

theorem sumLoop_spec (k : Nat) : ∀ s : SumState,
    k ≤ s.a.length → k ≤ s.b.length → IsBytes s.a →
    (sumLoop k s).b = s.b ∧ (sumLoop k s).a.length = s.a.length ∧
    (sumLoop k s).a.drop k = s.a.drop k ∧ IsBytes (sumLoop k s).a ∧
    beValue ((sumLoop k s).a.take k) + (sumLoop k s).carry * 256 ^ k =
      beValue (s.a.take k) + beValue (s.b.take k) + s.carry := by
  induction k with
  | zero =>
    intro s _ _ hb
    simp [sumLoop, beValue, hb]
  | succ k ih =>
    intro s ha hb hbytes
    have hka : k < s.a.length := by omega
    have hkb : k < s.b.length := by omega
    obtain ⟨s1, hs1⟩ : ∃ s1 : SumState, s1 =
        ⟨s.a.set k ((s.a[k] + s.b[k] + s.carry) % 256), s.b,
          (s.a[k] + s.b[k] + s.carry) / 256⟩ := ⟨_, rfl⟩
    have hstep : sumLoop (k + 1) s = sumLoop k s1 := by
      rw [hs1, sumLoop, List.getElem?_eq_getElem hka, List.getElem?_eq_getElem hkb]
    rw [hstep]
    have h1a : s1.a = s.a.set k ((s.a[k] + s.b[k] + s.carry) % 256) := by rw [hs1]
    have h1b : s1.b = s.b := by rw [hs1]
    have h1c : s1.carry = (s.a[k] + s.b[k] + s.carry) / 256 := by rw [hs1]
    have hlen1 : s1.a.length = s.a.length := by rw [h1a, List.length_set]
    obtain ⟨rb, rlen, rdrop, rbytes, rval⟩ := ih s1 (by omega) (by rw [h1b]; omega)
      (by rw [h1a]; exact hbytes.set _ _ (Nat.mod_lt _ (by decide)))
    refine ⟨by rw [rb, h1b], by rw [rlen, hlen1], ?_, rbytes, ?_⟩
    · rw [drop_succ_of_drop_eq rdrop, h1a, List.drop_set_of_lt _ _ (Nat.lt_succ_self k)]
    · have hrk : k < (sumLoop k s1).a.length := by omega
      have hget : (sumLoop k s1).a[k] = (s.a[k] + s.b[k] + s.carry) % 256 := by
        have h2 := getElem_of_drop_eq rdrop
        rw [List.getElem?_eq_getElem hrk, h1a, List.getElem?_set_self hka] at h2
        exact Option.some.inj h2
      have htake : s1.a.take k = s.a.take k := by
        rw [h1a, take_set_self]
      rw [beValue_take_succ _ k hrk, beValue_take_succ _ k hka, beValue_take_succ _ k hkb, hget]
      rw [htake, h1b, h1c] at rval
      rw [pow_succ]
      have hq := Nat.div_add_mod (s.a[k] + s.b[k] + s.carry) 256
      rw [← Nat.mul_assoc]
      generalize (sumLoop k s1).carry * 256 ^ k = Q at rval ⊢
      omega

theorem pow_256_32 : (256 : Nat) ^ 32 = 2 ^ 256 := by norm_num

theorem sumPrivateKeys_facts (a b : List Nat) (ha : a.length = 32) (hb : 32 ≤ b.length)
    (hab : IsBytes a) :
    (sumPrivateKeys a b).1.length = 32 ∧ IsBytes (sumPrivateKeys a b).1 ∧
    beValue (sumPrivateKeys a b).1 = (beValue a + beValue (b.take 32)) % 2 ^ 256 ∧
    (sumPrivateKeys a b).2.1 = b ∧
    ((sumPrivateKeys a b).2.2 = true ↔ 2 ^ 256 ≤ beValue a + beValue (b.take 32)) := by
  obtain ⟨rb, rlen, -, rbytes, rval⟩ :=
    sumLoop_spec 32 ⟨a, b, 0⟩ (by simp [ha]) (by simpa using hb) hab
  simp only [] at rb rlen rbytes rval
  have hlt := beValue_lt _ rbytes
  rw [rlen, ha, pow_256_32] at hlt
  rw [List.take_of_length_le (by omega), List.take_of_length_le (le_of_eq ha),
    pow_256_32, Nat.add_zero] at rval
  refine ⟨by simp only [sumPrivateKeys]; omega, rbytes, ?_, rb, ?_⟩
  · simp only [sumPrivateKeys]
    generalize (sumLoop 32 ⟨a, b, 0⟩).carry = c at rval
    generalize beValue (sumLoop 32 ⟨a, b, 0⟩).a = r at rval hlt ⊢
    omega
  · simp only [sumPrivateKeys, decide_eq_true_eq]
    generalize (sumLoop 32 ⟨a, b, 0⟩).carry = c at rval ⊢
    generalize beValue (sumLoop 32 ⟨a, b, 0⟩).a = r at rval hlt ⊢
    omega

/-! ## The borrow chain of `subtractFromPrivateKey` -/

theorem subtractAssigned_range (x c : Nat) (carry : Int) (hx : x < 256) (hc : c < 256)
    (hcar : carry = 0 ∨ carry = 1) :
    0 ≤ subtractAssigned ((x : Int) - c - carry) ∧
    subtractAssigned ((x : Int) - c - carry) ≤ 255 := by
  unfold subtractAssigned
  rcases hcar with h | h <;> subst h <;> split_ifs <;> omega

theorem toUint8_of_range (y : Int) (h0 : 0 ≤ y) (h1 : y ≤ 255) :
    ((toUint8 y : Nat) : Int) = y := by
  unfold toUint8
  omega

theorem toUint8_lt (y : Int) : toUint8 y < 256 := by
  unfold toUint8
  omega

theorem subtractLoop_spec (k : Nat) : ∀ (pk : List Nat) (c : Int),
    k ≤ pk.length → k ≤ 32 → IsBytes pk → (c = 0 ∨ c = 1) →
    (subtractLoop k pk c).1.length = pk.length ∧
    (subtractLoop k pk c).1.drop k = pk.drop k ∧
    IsBytes (subtractLoop k pk c).1 ∧
    ((subtractLoop k pk c).2 = 0 ∨ (subtractLoop k pk c).2 = 1) ∧
    (beValue ((subtractLoop k pk c).1.take k) : Int) - (subtractLoop k pk c).2 * 256 ^ k =
      (beValue (pk.take k) : Int) - (beValue (orderBytes.take k) : Int) - c := by
  induction k with
  | zero =>
    intro pk c _ _ hb hc
    simp [subtractLoop, beValue, hb, hc]
  | succ k ih =>
    intro pk c hk h32 hb hc
    have hkp : k < pk.length := by omega
    have hko : k < orderBytes.length := by rw [orderBytes_length]; omega
    have ho : orderBytes[k] = curveOrderByte k := by
      have h := orderBytes_getElem? k (by omega)
      rw [List.getElem?_eq_getElem hko] at h
      exact Option.some.inj h
    obtain ⟨d, hd⟩ : ∃ d : Int, d = (pk[k] : Int) - (curveOrderByte k : Int) - c := ⟨_, rfl⟩
    obtain ⟨pk1, hpk1⟩ : ∃ pk1 : List Nat, pk1 = pk.set k (toUint8 (subtractAssigned d)) :=
      ⟨_, rfl⟩
    obtain ⟨c1, hc1⟩ : ∃ c1 : Int, c1 = if d < 0 then 1 else 0 := ⟨_, rfl⟩
    have hstep : subtractLoop (k + 1) pk c = subtractLoop k pk1 c1 := by
      rw [hpk1, hc1, hd, subtractLoop, List.getElem?_eq_getElem hkp]
    rw [hstep]
    have hlen1 : pk1.length = pk.length := by rw [hpk1, List.length_set]
    have hc1' : c1 = 0 ∨ c1 = 1 := by rw [hc1]; split_ifs <;> simp
    obtain ⟨rlen, rdrop, rbytes, rc, rval⟩ := ih pk1 c1 (by omega) (by omega)
      (by rw [hpk1]; exact hb.set _ _ (toUint8_lt _)) hc1'
    refine ⟨by rw [rlen, hlen1], ?_, rbytes, rc, ?_⟩
    · rw [drop_succ_of_drop_eq rdrop, hpk1, List.drop_set_of_lt _ _ (Nat.lt_succ_self k)]
    · have hrk : k < (subtractLoop k pk1 c1).1.length := by omega
      have hx : pk[k] < 256 := hb _ (List.getElem_mem hkp)
      have hrange := subtractAssigned_range pk[k] (curveOrderByte k) c hx
        (curveOrderByte_lt k) hc
      rw [← hd] at hrange
      have hget : (subtractLoop k pk1 c1).1[k] = toUint8 (subtractAssigned d) := by
        have h2 := getElem_of_drop_eq rdrop
        have h3 : pk1[k]? = some (toUint8 (subtractAssigned d)) := by
          rw [hpk1, List.getElem?_set_self hkp]
        rw [List.getElem?_eq_getElem hrk, h3] at h2
        exact Option.some.inj h2
      have hw := toUint8_of_range _ hrange.1 hrange.2
      have htake : pk1.take k = pk.take k := by rw [hpk1, take_set_self]
      rw [beValue_take_succ _ k hrk, beValue_take_succ _ k hkp, beValue_take_succ _ k hko,
        hget, ho]
      rw [htake] at rval
      push_cast
      rw [hw, pow_succ, ← mul_assoc]
      generalize (subtractLoop k pk1 c1).2 * 256 ^ k = Q at rval ⊢
      have hsa : subtractAssigned d = d + 256 * c1 := by
        rw [hc1]; unfold subtractAssigned; split_ifs <;> omega
      rw [hsa]
      omega

theorem subtractFromPrivateKey_facts (pk : List Nat) (hlen : pk.length = 32)
    (hb : IsBytes pk) :
    (subtractFromPrivateKey pk).length = 32 ∧ IsBytes (subtractFromPrivateKey pk) ∧
    (beValue (subtractFromPrivateKey pk) : Int) =
      ((beValue pk : Int) - (CURVE_n : Int)) % 2 ^ 256 := by
  obtain ⟨rlen, -, rbytes, rc, rval⟩ :=
    subtractLoop_spec 32 pk 0 (by omega) (le_refl _) hb (Or.inl rfl)
  have hlt := beValue_lt _ rbytes
  have hpl := beValue_lt _ hb
  rw [rlen, hlen, pow_256_32] at hlt
  rw [hlen, pow_256_32] at hpl
  rw [List.take_of_length_le (by omega), List.take_of_length_le (le_of_eq hlen),
    List.take_of_length_le (le_of_eq orderBytes_length), beValue_orderBytes] at rval
  have hp : ((256 : Int) ^ 32) = 2 ^ 256 := by norm_num
  rw [hp] at rval
  refine ⟨by simp only [subtractFromPrivateKey]; omega, rbytes, ?_⟩
  simp only [subtractFromPrivateKey]
  generalize beValue (subtractLoop 32 pk 0).1 = r at rval hlt ⊢
  generalize beValue pk = v at rval hpl ⊢
  simp only [CURVE_n] at rval ⊢
  norm_num at rval hlt hpl ⊢
  rcases rc with h | h <;> rw [h] at rval <;> omega

theorem fromAddStep_facts (p m : List Nat) (hp : p.length = 32) (hm : 32 ≤ m.length)
    (hpb : IsBytes p) (hpn : beValue p < CURVE_n) (hIL : beValue (m.take 32) < CURVE_n) :
    (fromAddStep p m).length = 32 ∧ IsBytes (fromAddStep p m) ∧
    beValue (fromAddStep p m) = (beValue p + beValue (m.take 32)) % CURVE_n := by
  obtain ⟨slen, sbytes, sval, -, sov⟩ := sumPrivateKeys_facts p m hp hm hpb
  have hcmp := compareWithCurveOrder_eq (sumPrivateKeys p m).1 0 (by omega) sbytes
  rw [List.drop_zero, List.take_of_length_le (le_of_eq slen)] at hcmp
  have hslt := beValue_lt _ sbytes
  rw [slen, pow_256_32] at hslt
  unfold fromAddStep
  simp only []
  split
  · next hcond =>
    obtain ⟨dlen, dbytes, dval⟩ := subtractFromPrivateKey_facts _ slen sbytes
    refine ⟨dlen, dbytes, ?_⟩
    have hlt := beValue_lt _ dbytes
    rw [dlen, pow_256_32] at hlt
    have hge : 2 ^ 256 ≤ beValue p + beValue (m.take 32) ∨
        CURVE_n ≤ beValue (sumPrivateKeys p m).1 := by
      rcases Bool.or_eq_true _ _ ▸ hcond with h | h
      · exact Or.inl (sov.1 h)
      · right
        rw [decide_eq_true_eq, hcmp] at h
        unfold cmpNat at h
        split_ifs at h <;> omega
    generalize beValue (subtractFromPrivateKey (sumPrivateKeys p m).1) = d at dval hlt ⊢
    generalize beValue (sumPrivateKeys p m).1 = sm at sval hslt dval hge
    generalize beValue p = x at hpn sval hge ⊢
    generalize beValue (m.take 32) = y at hIL sval hge ⊢
    simp only [CURVE_n] at hpn hIL dval hge ⊢
    norm_num at hslt hlt dval hge sval ⊢
    omega
  · next hcond =>
    refine ⟨slen, sbytes, ?_⟩
    rw [Bool.or_eq_true, not_or] at hcond
    have h1 : ¬ 2 ^ 256 ≤ beValue p + beValue (m.take 32) := fun h => hcond.1 (sov.2 h)
    have h2 : beValue (sumPrivateKeys p m).1 < CURVE_n := by
      have h := hcond.2
      rw [decide_eq_true_eq, hcmp] at h
      unfold cmpNat at h
      split_ifs at h <;> omega
    generalize beValue (sumPrivateKeys p m).1 = sm at sval hslt h2 ⊢
    generalize beValue p = x at hpn sval h1 ⊢
    generalize beValue (m.take 32) = y at hIL sval h1 ⊢
    simp only [CURVE_n] at hpn hIL h2 ⊢
    norm_num at hslt sval h1 ⊢
    omega

/-! ## Statements on the fixed-width arithmetic -/

/-- C3: on a buffer with at least `offset + 32` bytes, `compareWithCurveOrder`
returns `-1`, `0` or `1` exactly when the 32 bytes from `offset`, read as a
big-endian number, are below, equal to or above the group order. -/
theorem compareWithCurveOrder_sign (buffer : List Nat) (offset : Nat)
    (hlen : offset + 32 ≤ buffer.length) (hb : IsBytes buffer) :
    (compareWithCurveOrder buffer offset = -1 ↔
      beValue ((buffer.drop offset).take 32) < CURVE_n) ∧
    (compareWithCurveOrder buffer offset = 0 ↔
      beValue ((buffer.drop offset).take 32) = CURVE_n) ∧
    (compareWithCurveOrder buffer offset = 1 ↔
      beValue ((buffer.drop offset).take 32) > CURVE_n) ∧
    (compareWithCurveOrder buffer offset = -1 ∨ compareWithCurveOrder buffer offset = 0 ∨
      compareWithCurveOrder buffer offset = 1) := by
  rw [compareWithCurveOrder_eq buffer offset hlen hb]
  generalize beValue ((buffer.drop offset).take 32) = v
  generalize CURVE_n = n
  unfold cmpNat
  refine ⟨?_, ?_, ?_, ?_⟩ <;> split_ifs <;> simp <;> omega

theorem compareWithCurveOrder_sign_witness :
    (3 + 32 ≤ sampleBuffer.length ∧ IsBytes sampleBuffer) ∧
    ((compareWithCurveOrder sampleBuffer 3 = -1 ↔
      beValue ((sampleBuffer.drop 3).take 32) < CURVE_n) ∧
    (compareWithCurveOrder sampleBuffer 3 = 0 ↔
      beValue ((sampleBuffer.drop 3).take 32) = CURVE_n) ∧
    (compareWithCurveOrder sampleBuffer 3 = 1 ↔
      beValue ((sampleBuffer.drop 3).take 32) > CURVE_n) ∧
    (compareWithCurveOrder sampleBuffer 3 = -1 ∨ compareWithCurveOrder sampleBuffer 3 = 0 ∨
      compareWithCurveOrder sampleBuffer 3 = 1)) :=
  ⟨⟨by decide, by decide⟩, compareWithCurveOrder_sign sampleBuffer 3 (by decide) (by decide)⟩

/-- C4: for distinct buffers `a` (32 bytes, value `x`) and `b` (at least 32
bytes, first 32 bytes of value `y`), `sumPrivateKeys` leaves in `a` the 32-byte
big-endian encoding of `(x + y) mod 2^256`, leaves `b` unchanged, and returns
true exactly when `x + y ≥ 2^256`. -/
theorem sumPrivateKeys_carry_chain (a b : List Nat) (ha : a.length = 32)
    (hb : 32 ≤ b.length) (hab : IsBytes a) :
    (sumPrivateKeys a b).1.length = 32 ∧ IsBytes (sumPrivateKeys a b).1 ∧
    beValue (sumPrivateKeys a b).1 = (beValue a + beValue (b.take 32)) % 2 ^ 256 ∧
    (sumPrivateKeys a b).2.1 = b ∧
    ((sumPrivateKeys a b).2.2 = true ↔ beValue a + beValue (b.take 32) ≥ 2 ^ 256) :=
  sumPrivateKeys_facts a b ha hb hab

theorem sumPrivateKeys_carry_chain_witness :
    ((List.replicate 32 255).length = 32 ∧ 32 ≤ sampleBuffer.length ∧
      IsBytes (List.replicate 32 255)) ∧
    ((sumPrivateKeys (List.replicate 32 255) sampleBuffer).1.length = 32 ∧
    IsBytes (sumPrivateKeys (List.replicate 32 255) sampleBuffer).1 ∧
    beValue (sumPrivateKeys (List.replicate 32 255) sampleBuffer).1 =
      (beValue (List.replicate 32 255) + beValue (sampleBuffer.take 32)) % 2 ^ 256 ∧
    (sumPrivateKeys (List.replicate 32 255) sampleBuffer).2.1 = sampleBuffer ∧
    ((sumPrivateKeys (List.replicate 32 255) sampleBuffer).2.2 = true ↔
      beValue (List.replicate 32 255) + beValue (sampleBuffer.take 32) ≥ 2 ^ 256)) :=
  ⟨⟨by decide, by decide, by decide⟩,
    sumPrivateKeys_carry_chain (List.replicate 32 255) sampleBuffer (by decide) (by decide)
      (by decide)⟩

/-- C5: on a 32-byte buffer of value `v`, `subtractFromPrivateKey` leaves the
32-byte big-endian encoding of `(v - n) mod 2^256`, which is `v - n` when
`v ≥ n`; each value assigned to a byte is already in `0..255`. -/
theorem subtractFromPrivateKey_borrow_chain (pk : List Nat) (hlen : pk.length = 32)
    (hb : IsBytes pk) :
    (subtractFromPrivateKey pk).length = 32 ∧ IsBytes (subtractFromPrivateKey pk) ∧
    (beValue (subtractFromPrivateKey pk) : Int) =
      ((beValue pk : Int) - (CURVE_n : Int)) % 2 ^ 256 ∧
    (CURVE_n ≤ beValue pk → beValue (subtractFromPrivateKey pk) = beValue pk - CURVE_n) ∧
    (∀ (i x : Nat) (carry : Int), i < 32 → x < 256 → (carry = 0 ∨ carry = 1) →
      0 ≤ subtractAssigned ((x : Int) - (curveOrderByte i : Int) - carry) ∧
      subtractAssigned ((x : Int) - (curveOrderByte i : Int) - carry) ≤ 255) := by
  obtain ⟨dlen, dbytes, dval⟩ := subtractFromPrivateKey_facts pk hlen hb
  refine ⟨dlen, dbytes, dval, ?_, ?_⟩
  · intro hge
    have hpl := beValue_lt _ hb
    rw [hlen, pow_256_32] at hpl
    generalize beValue (subtractFromPrivateKey pk) = d at dval ⊢
    generalize beValue pk = v at dval hpl hge ⊢
    simp only [CURVE_n] at dval hge ⊢
    norm_num at hpl dval ⊢
    omega
  · intro i x carry _ hx hc
    exact subtractAssigned_range x (curveOrderByte i) carry hx (curveOrderByte_lt i) hc

theorem subtractFromPrivateKey_borrow_chain_witness :
    ((List.replicate 32 255).length = 32 ∧ IsBytes (List.replicate 32 255)) ∧
    ((subtractFromPrivateKey (List.replicate 32 255)).length = 32 ∧
    IsBytes (subtractFromPrivateKey (List.replicate 32 255)) ∧
    (beValue (subtractFromPrivateKey (List.replicate 32 255)) : Int) =
      ((beValue (List.replicate 32 255) : Int) - (CURVE_n : Int)) % 2 ^ 256 ∧
    (CURVE_n ≤ beValue (List.replicate 32 255) →
      beValue (subtractFromPrivateKey (List.replicate 32 255)) =
        beValue (List.replicate 32 255) - CURVE_n) ∧
    (∀ (i x : Nat) (carry : Int), i < 32 → x < 256 → (carry = 0 ∨ carry = 1) →
      0 ≤ subtractAssigned ((x : Int) - (curveOrderByte i : Int) - carry) ∧
      subtractAssigned ((x : Int) - (curveOrderByte i : Int) - carry) ≤ 255)) :=
  ⟨⟨by decide, by decide⟩,
    subtractFromPrivateKey_borrow_chain (List.replicate 32 255) (by decide) (by decide)⟩

/-- C2: in `MemorySafeSigningKey.from`, for a 32-byte parent scalar `p < n` and
an HMAC output whose first 32 bytes `IL` are `< n`, `sumPrivateKeys` followed by
`subtractFromPrivateKey` exactly when the addition overflowed or the sum
compares `≥ 0` with the order leaves the 32-byte big-endian encoding of
`(p + IL) mod n`, a value in `[0, n)`. -/
theorem fromAddStep_mod_order (p m : List Nat) (hp : p.length = 32) (hm : 32 ≤ m.length)
    (hpb : IsBytes p) (hpn : beValue p < CURVE_n)
    (hIL : beValue (m.take 32) < CURVE_n) :
    (fromAddStep p m).length = 32 ∧ IsBytes (fromAddStep p m) ∧
    beValue (fromAddStep p m) = (beValue p + beValue (m.take 32)) % CURVE_n ∧
    beValue (fromAddStep p m) < CURVE_n := by
  obtain ⟨h1, h2, h3⟩ := fromAddStep_facts p m hp hm hpb hpn hIL
  exact ⟨h1, h2, h3, h3 ▸ Nat.mod_lt _ (by decide)⟩

theorem fromAddStep_mod_order_witness :
    (sampleScalar.length = 32 ∧ 32 ≤ sampleOutput.length ∧ IsBytes sampleScalar ∧
      beValue sampleScalar < CURVE_n ∧
      beValue (sampleOutput.take 32) < CURVE_n) ∧
    ((fromAddStep sampleScalar sampleOutput).length = 32 ∧
    IsBytes (fromAddStep sampleScalar sampleOutput) ∧
    beValue (fromAddStep sampleScalar sampleOutput) =
      (beValue sampleScalar + beValue (sampleOutput.take 32)) % CURVE_n ∧
    beValue (fromAddStep sampleScalar sampleOutput) < CURVE_n) :=
  ⟨⟨by decide, by decide, by decide, by decide, by decide⟩,
    fromAddStep_mod_order sampleScalar sampleOutput (by decide) (by decide) (by decide)
      (by decide) (by decide)⟩

/-! ## The derivation message -/

theorem isHardened_eq (index : Nat) (h : index ≤ 0xffffffff) :
    isHardened index = decide (2 ^ 31 ≤ index) := by
  have h1 : index % 2 ^ 32 = index := Nat.mod_eq_of_lt (by omega)
  have h2 : Nat.land index HardenedBit = (index.testBit 31).toNat * 2 ^ 31 :=
    Nat.and_two_pow index 31
  unfold isHardened
  rw [h1, h2, Nat.testBit_to_div_mod]
  by_cases hge : 2147483648 ≤ index
  · have h3 : index / 2147483648 % 2 = 1 := by omega
    norm_num [h3, hge]
  · have h3 : ¬ index / 2147483648 % 2 = 1 := by omega
    norm_num [h3, hge]

theorem shiftRightByte_eq (index : Nat) (h : index ≤ 0xffffffff) :
    shiftRightByte index 24 = index / 2 ^ 24 % 256 ∧
    shiftRightByte index 16 = index / 2 ^ 16 % 256 ∧
    shiftRightByte index 8 = index / 2 ^ 8 % 256 ∧
    shiftRightByte index 0 = index % 256 := by
  unfold shiftRightByte toInt32
  norm_num
  refine ⟨?_, ?_, ?_, ?_⟩ <;> split_ifs <;> omega

theorem typedArraySet_ok (target source : List Nat) (offset : Nat)
    (h : source.length + offset ≤ target.length) :
    typedArraySet target source offset =
      .ok (target.take offset ++ source ++ target.drop (offset + source.length)) := by
  unfold typedArraySet
  rw [if_neg (by omega)]

theorem set_index_bytes (pre : List Nat) (hpre : pre.length = 33) (f : Nat → Nat) :
    [24, 16, 8, 0].foldl (fun d i => d.set (33 + i / 8) (f (24 - i))) (pre ++ [0, 0, 0, 0]) =
      pre ++ [f 24, f 16, f 8, f 0] := by
  simp [List.set_append, hpre]

theorem serIData_eq (index : Nat) (publicKey key : List Nat) (hkey : key.length = 32)
    (hpub : publicKey.length = 33) :
    serIData index publicKey (some key) =
      .ok ((if isHardened index then 0 :: key else publicKey) ++
        [shiftRightByte index 24, shiftRightByte index 16, shiftRightByte index 8,
          shiftRightByte index 0]) := by
  unfold serIData
  by_cases hh : isHardened index = true
  · have h1 := typedArraySet_ok (List.replicate 37 0) key 1 (by simp [hkey])
    have h2 : List.take 1 (List.replicate 37 0) ++ key ++
        List.drop (1 + key.length) (List.replicate 37 0) = (0 :: key) ++ [0, 0, 0, 0] := by
      rw [hkey]; rfl
    rw [h2] at h1
    simp only [hh, if_true, h1]
    have h3 := set_index_bytes (0 :: key) (by simp [hkey]) (shiftRightByte index)
    simp only [bind, Except.bind, pure, Except.pure, h3]
  · have h1 := typedArraySet_ok (List.replicate 37 0) publicKey 0 (by simp [hpub])
    have h2 : List.take 0 (List.replicate 37 0) ++ publicKey ++
        List.drop (0 + publicKey.length) (List.replicate 37 0) = publicKey ++ [0, 0, 0, 0] := by
      rw [hpub]; rfl
    rw [h2] at h1
    simp only [hh, h1]
    have h3 := set_index_bytes publicKey hpub (shiftRightByte index)
    simp only [bind, Except.bind, pure, Except.pure, h3]
    rfl

theorem typedArraySet_index (filled pre enc : List Nat) (hlen : filled.length = 37)
    (hpre : filled.take 33 = pre) (henc : enc.length = 4) :
    typedArraySet filled enc 33 = .ok (pre ++ enc) := by
  rw [typedArraySet_ok filled enc 33 (by omega), hpre,
    List.drop_of_length_le (by omega), List.append_nil]

theorem encodeUInt32BE_length (value : Option Nat) : (encodeUInt32BE value).length = 4 := by
  cases value <;> rfl

theorem fromFillPath_eq (P : Primitives) (index : Nat) (key masterKeyBuffer stale : List Nat)
    (hkey : key.length = 32) (hstale : stale.length = 37)
    (hpub : (P.getPublicKey key true).length = 33) :
    fromFillPath P (some index) ⟨key, masterKeyBuffer, stale⟩ =
      .ok ⟨key, masterKeyBuffer,
        (if index ≥ DERIVATION_PATH_BUFFER_OFFSET then 0 :: key else P.getPublicKey key true) ++
          encodeUInt32BE (some index)⟩ := by
  unfold fromFillPath
  simp only [Option.any_some]
  by_cases hh : index ≥ DERIVATION_PATH_BUFFER_OFFSET
  · cases stale with
    | nil => simp at hstale
    | cons x rest =>
      have hrest : rest.length = 36 := by simpa using hstale
      have h1 := typedArraySet_ok ((x :: rest).set 0 0) key 1 (by simp [hkey, hrest])
      have h2 : List.take 1 ((x :: rest).set 0 0) ++ key ++
          List.drop (1 + key.length) ((x :: rest).set 0 0) =
          (0 :: key) ++ List.drop 32 rest := by
        rw [hkey]; rfl
      rw [h2] at h1
      have h3 := typedArraySet_index ((0 :: key) ++ List.drop 32 rest) (0 :: key)
        (encodeUInt32BE (some index))
        (by simp [hkey, hrest]) (List.take_left' (by simp [hkey])) (encodeUInt32BE_length _)
      simp only [hh, decide_True, if_true, h1, bind, Except.bind, h3, pure, Except.pure]
  · have h1 := typedArraySet_ok stale (P.getPublicKey key true) 0 (by omega)
    have h2 : List.take 0 stale ++ P.getPublicKey key true ++
        List.drop (0 + (P.getPublicKey key true).length) stale =
        P.getPublicKey key true ++ List.drop 33 stale := by
      rw [hpub]; rfl
    rw [h2] at h1
    have h3 := typedArraySet_index (P.getPublicKey key true ++ List.drop 33 stale)
      (P.getPublicKey key true) (encodeUInt32BE (some index))
      (by simp [hpub, hstale]) (List.take_left' hpub) (encodeUInt32BE_length _)
    have h4 : typedArraySet stale (P.getPublicKey key true) =
        typedArraySet stale (P.getPublicKey key true) 0 := rfl
    simp only [hh, decide_False, h4, h1, bind, Except.bind, h3, pure, Except.pure]
    rfl

/-! ## `fromSeed` and `deriveChild` -/

theorem foldl_set_length (l : List Nat) (g : Nat → Nat) (init : List Nat) :
    (l.foldl (fun buffer i => buffer.set i (g i)) init).length = init.length := by
  induction l generalizing init with
  | nil => rfl
  | cons i l ih => rw [List.foldl_cons, ih, List.length_set]

theorem childBuffer_length (IL key : List Nat) : (childBuffer IL key).length = 32 := by
  unfold childBuffer
  rw [foldl_set_length]
  rfl

theorem signingKey_new_ok (buffer : List Nat) (h : buffer.length = 32) :
    MemorySafeSigningKey.new buffer = .ok { privateKeyBuffer := some buffer } := by
  unfold MemorySafeSigningKey.new
  rw [if_neg (by omega)]

theorem node_new_ok (P : Primitives) (key : List Nat) (parentFingerprint : String)
    (chainCode : List Nat) (path : Option String) (index depth : Nat)
    (hvalid : validScalar key = true) (hguard : P.acceptsGuard = true) :
    MemorySafeHDNodeWallet.new P { privateKeyBuffer := some key } parentFingerprint chainCode
        path index depth =
      .ok { signingKey := { privateKeyBuffer := some key },
            parentFingerprint := parentFingerprint, chainCode := chainCode, path := path,
            index := index, depth := depth, publicKey := P.getPublicKey key true,
            fingerprint := P.fingerprint (P.getPublicKey key true) } := by
  simp [MemorySafeHDNodeWallet.new, hvalid, hguard]

theorem node_new_invalid (P : Primitives) (key : List Nat) (parentFingerprint : String)
    (chainCode : List Nat) (path : Option String) (index depth : Nat)
    (hvalid : validScalar key = false) :
    MemorySafeHDNodeWallet.new P { privateKeyBuffer := some key } parentFingerprint chainCode
        path index depth = .error .invalidPrivateKey := by
  simp [MemorySafeHDNodeWallet.new, hvalid]

theorem node_new_guard (P : Primitives) (key : List Nat) (parentFingerprint : String)
    (chainCode : List Nat) (path : Option String) (index depth : Nat)
    (hvalid : validScalar key = true) (hguard : P.acceptsGuard = false) :
    MemorySafeHDNodeWallet.new P { privateKeyBuffer := some key } parentFingerprint chainCode
        path index depth = .error .privateConstructor := by
  simp [MemorySafeHDNodeWallet.new, hvalid, hguard]

theorem node_new_inv (P : Primitives) (key : List Nat) (parentFingerprint : String)
    (chainCode : List Nat) (path : Option String) (index depth : Nat)
    (node : MemorySafeHDNodeWallet)
    (h : MemorySafeHDNodeWallet.new P { privateKeyBuffer := some key } parentFingerprint
      chainCode path index depth = .ok node) :
    validScalar key = true ∧ P.acceptsGuard = true ∧
      node = { signingKey := { privateKeyBuffer := some key },
               parentFingerprint := parentFingerprint, chainCode := chainCode, path := path,
               index := index, depth := depth, publicKey := P.getPublicKey key true,
               fingerprint := P.fingerprint (P.getPublicKey key true) } := by
  cases hv : validScalar key
  · rw [node_new_invalid P key _ _ _ _ _ hv] at h
    exact Except.noConfusion h
  · cases hg : P.acceptsGuard
    · rw [node_new_guard P key _ _ _ _ _ hv hg] at h
      exact Except.noConfusion h
    · rw [node_new_ok P key _ _ _ _ _ hv hg] at h
      exact ⟨rfl, rfl, (Except.ok.inj h).symm⟩

theorem validScalar_iff (key : List Nat) :
    validScalar key = true ↔ 1 ≤ beValue key ∧ beValue key < CURVE_n := by
  simp [validScalar]

theorem fromSeed_eq_new (P : Primitives) (seed : List Nat)
    (hlen : 16 ≤ seed.length ∧ seed.length ≤ 64)
    (hI : (P.computeHmac MasterSecret seed).length = 64) :
    MemorySafeHDNodeWallet.fromSeed P seed =
      MemorySafeHDNodeWallet.new P
        { privateKeyBuffer := some ((P.computeHmac MasterSecret seed).take 32) }
        "0x00000000" ((P.computeHmac MasterSecret seed).drop 32) (some "m") 0 0 := by
  have h32 : ((P.computeHmac MasterSecret seed).take 32).length = 32 := by
    rw [List.length_take, hI]; rfl
  have hr : ¬ ¬ (seed.length ≥ 16 ∧ seed.length ≤ 64) := not_not.mpr hlen
  unfold MemorySafeHDNodeWallet.fromSeed
  simp only [hr, if_false, signingKey_new_ok _ h32, bind, Except.bind, pure, Except.pure]

theorem fromSeed_eq (P : Primitives) (seed : List Nat)
    (hlen : 16 ≤ seed.length ∧ seed.length ≤ 64)
    (hI : (P.computeHmac MasterSecret seed).length = 64)
    (hvalid : validScalar ((P.computeHmac MasterSecret seed).take 32) = true)
    (hguard : P.acceptsGuard = true) :
    MemorySafeHDNodeWallet.fromSeed P seed =
      .ok { signingKey := { privateKeyBuffer := some ((P.computeHmac MasterSecret seed).take 32) },
            parentFingerprint := "0x00000000",
            chainCode := (P.computeHmac MasterSecret seed).drop 32,
            path := some "m", index := 0, depth := 0,
            publicKey := P.getPublicKey ((P.computeHmac MasterSecret seed).take 32) true,
            fingerprint :=
              P.fingerprint (P.getPublicKey ((P.computeHmac MasterSecret seed).take 32) true) } := by
  rw [fromSeed_eq_new P seed hlen hI, node_new_ok P _ _ _ _ _ _ hvalid hguard]

theorem fromSeed_inv (P : Primitives) (seed : List Nat) (root : MemorySafeHDNodeWallet)
    (h : MemorySafeHDNodeWallet.fromSeed P seed = .ok root) :
    (16 ≤ seed.length ∧ seed.length ≤ 64) ∧
    ((P.computeHmac MasterSecret seed).take 32).length = 32 ∧
    validScalar ((P.computeHmac MasterSecret seed).take 32) = true ∧
    P.acceptsGuard = true ∧
    root = { signingKey :=
               { privateKeyBuffer := some ((P.computeHmac MasterSecret seed).take 32) },
             parentFingerprint := "0x00000000",
             chainCode := (P.computeHmac MasterSecret seed).drop 32,
             path := some "m", index := 0, depth := 0,
             publicKey := P.getPublicKey ((P.computeHmac MasterSecret seed).take 32) true,
             fingerprint :=
               P.fingerprint
                 (P.getPublicKey ((P.computeHmac MasterSecret seed).take 32) true) } := by
  by_cases hlen : seed.length ≥ 16 ∧ seed.length ≤ 64
  · by_cases h32 : ((P.computeHmac MasterSecret seed).take 32).length = 32
    · have hr : ¬ ¬ (seed.length ≥ 16 ∧ seed.length ≤ 64) := not_not.mpr hlen
      unfold MemorySafeHDNodeWallet.fromSeed at h
      simp only [hr, if_false, signingKey_new_ok _ h32, bind, Except.bind, pure,
        Except.pure] at h
      exact ⟨hlen, h32, node_new_inv P _ _ _ _ _ _ root h⟩
    · exfalso
      have hr : ¬ ¬ (seed.length ≥ 16 ∧ seed.length ≤ 64) := not_not.mpr hlen
      unfold MemorySafeHDNodeWallet.fromSeed at h
      simp only [hr, if_false, MemorySafeSigningKey.new, h32, ne_eq, not_false_eq_true, if_true,
        bind, Except.bind, pure, Except.pure] at h
      exact Except.noConfusion h
  · exfalso
    unfold MemorySafeHDNodeWallet.fromSeed at h
    simp only [hlen, not_false_eq_true, if_true, bind, Except.bind, throw, throwThe,
      MonadExceptOf.throw] at h
    exact Except.noConfusion h

theorem deriveChild_eq_new (P : Primitives) (self : MemorySafeHDNodeWallet) (index : Nat)
    (key data : List Nat) (hidx : index ≤ 0xffffffff)
    (hkey : self.signingKey.privateKeyBuffer = some key)
    (hdata : serIData index self.publicKey (some key) = .ok data) :
    self.deriveChild P index =
      MemorySafeHDNodeWallet.new P
        { privateKeyBuffer :=
            some (childBuffer ((P.computeHmac self.chainCode data).take 32) key) }
        self.fingerprint ((P.computeHmac self.chainCode data).drop 32)
        (match self.path with
         | some p =>
           if p ≠ "" then
             some (p ++ "/" ++ toString (Nat.land (index % 2 ^ 32) 0x7fffffff) ++
               (if isHardened index then "'" else ""))
           else some p
         | none => none)
        index (self.depth + 1) := by
  have hr : ¬ ¬ index ≤ 0xffffffff := not_not.mpr hidx
  unfold MemorySafeHDNodeWallet.deriveChild ser_I
  simp only [hr, if_false, hkey, hdata, bind, Except.bind, pure,
    Except.pure, signingKey_new_ok _ (childBuffer_length _ _)]

theorem deriveChild_eq (P : Primitives) (self : MemorySafeHDNodeWallet) (index : Nat)
    (key data : List Nat) (hidx : index ≤ 0xffffffff)
    (hkey : self.signingKey.privateKeyBuffer = some key)
    (hdata : serIData index self.publicKey (some key) = .ok data)
    (hvalid : validScalar (childBuffer ((P.computeHmac self.chainCode data).take 32) key) = true)
    (hguard : P.acceptsGuard = true) :
    self.deriveChild P index =
      .ok { signingKey :=
              { privateKeyBuffer :=
                  some (childBuffer ((P.computeHmac self.chainCode data).take 32) key) },
            parentFingerprint := self.fingerprint,
            chainCode := (P.computeHmac self.chainCode data).drop 32,
            path :=
              (match self.path with
               | some p =>
                 if p ≠ "" then
                   some (p ++ "/" ++ toString (Nat.land (index % 2 ^ 32) 0x7fffffff) ++
                     (if isHardened index then "'" else ""))
                 else some p
               | none => none),
            index := index, depth := self.depth + 1,
            publicKey := P.getPublicKey
              (childBuffer ((P.computeHmac self.chainCode data).take 32) key) true,
            fingerprint := P.fingerprint (P.getPublicKey
              (childBuffer ((P.computeHmac self.chainCode data).take 32) key) true) } := by
  rw [deriveChild_eq_new P self index key data hidx hkey hdata,
    node_new_ok P _ _ _ _ _ _ hvalid hguard]

/-! ## Statements on the derivation message, `fromSeed` and `deriveChild` -/

/-- C6: for a uint32 index, a 32-byte parent scalar and its 33-byte compressed
public key, `ser_I` (used by `deriveChild`) and the loop body of
`MemorySafeSigningKey.from` build the same 37-byte HMAC message: `0x00` and the
scalar when the top bit of the index is set, the public key otherwise, then the
index in big-endian order, also for indices `≥ 2^31`. -/
theorem derivation_message_same (P : Primitives) (index : Nat) (hidx : index ≤ 0xffffffff)
    (key masterKeyBuffer stale chainCode : List Nat) (hkey : key.length = 32)
    (hstale : stale.length = 37) (hpub : (P.getPublicKey key true).length = 33) :
    ∃ data : List Nat,
      serIData index (P.getPublicKey key true) (some key) = .ok data ∧
      ser_I P index chainCode (P.getPublicKey key true) (some key) =
        .ok ((P.computeHmac chainCode data).take 32, (P.computeHmac chainCode data).drop 32) ∧
      fromFillPath P (some index) ⟨key, masterKeyBuffer, stale⟩ =
        .ok ⟨key, masterKeyBuffer, data⟩ ∧
      data.length = 37 ∧
      (2 ^ 31 ≤ index → data.take 33 = 0 :: key) ∧
      (index < 2 ^ 31 → data.take 33 = P.getPublicKey key true) ∧
      data.drop 33 =
        [index / 2 ^ 24 % 256, index / 2 ^ 16 % 256, index / 2 ^ 8 % 256, index % 256] := by
  obtain ⟨b3, b2, b1, b0⟩ := shiftRightByte_eq index hidx
  have hser := serIData_eq index (P.getPublicKey key true) key hkey hpub
  have hfrom := fromFillPath_eq P index key masterKeyBuffer stale hkey hstale hpub
  rw [isHardened_eq index hidx] at hser
  simp only [encodeUInt32BE, DERIVATION_PATH_BUFFER_OFFSET] at hfrom
  rw [b3, b2, b1, b0] at hser hfrom
  by_cases hh : 2 ^ 31 ≤ index
  · have hh2 : index ≥ 2147483648 := by omega
    simp only [hh, decide_True, if_true] at hser
    simp only [hh2, if_true] at hfrom
    refine ⟨_, hser, ?_, hfrom, by simp [hkey], fun _ => List.take_left' (by simp [hkey]),
      fun h => absurd hh (by omega), List.drop_left' (by simp [hkey])⟩
    unfold ser_I
    simp only [hser, bind, Except.bind, pure, Except.pure]
  · have hh2 : ¬ index ≥ 2147483648 := by omega
    simp only [hh, decide_False] at hser
    simp only [hh2, if_false] at hfrom
    refine ⟨_, hser, ?_, hfrom, by simp [hpub], fun h => absurd h hh,
      fun _ => List.take_left' hpub, List.drop_left' hpub⟩
    unfold ser_I
    simp only [hser, bind, Except.bind, pure, Except.pure]

theorem derivation_message_same_witness :
    ((0x80000001 : Nat) ≤ 0xffffffff ∧ sampleScalar.length = 32 ∧
      (List.replicate 37 9).length = 37 ∧
      (zeroPrimitives.getPublicKey sampleScalar true).length = 33) ∧
    ∃ data : List Nat,
      serIData 0x80000001 (zeroPrimitives.getPublicKey sampleScalar true) (some sampleScalar) =
        .ok data ∧
      ser_I zeroPrimitives 0x80000001 [] (zeroPrimitives.getPublicKey sampleScalar true)
          (some sampleScalar) =
        .ok ((zeroPrimitives.computeHmac [] data).take 32,
          (zeroPrimitives.computeHmac [] data).drop 32) ∧
      fromFillPath zeroPrimitives (some 0x80000001) ⟨sampleScalar, [], List.replicate 37 9⟩ =
        .ok ⟨sampleScalar, [], data⟩ ∧
      data.length = 37 ∧
      (2 ^ 31 ≤ 0x80000001 → data.take 33 = 0 :: sampleScalar) ∧
      (0x80000001 < 2 ^ 31 → data.take 33 = zeroPrimitives.getPublicKey sampleScalar true) ∧
      data.drop 33 =
        [0x80000001 / 2 ^ 24 % 256, 0x80000001 / 2 ^ 16 % 256, 0x80000001 / 2 ^ 8 % 256,
          0x80000001 % 256] :=
  ⟨⟨by decide, by decide, by decide, by decide⟩,
    derivation_message_same zeroPrimitives 0x80000001 (by decide) sampleScalar []
      (List.replicate 37 9) [] (by decide) (by decide) (by decide)⟩

/-- C8, counterexample: on a seed of 16 bytes for which the first 32 bytes of
the HMAC output are zero, `fromSeed` returns no root node: the constructor of
the base class fails on the public key of the scalar `0`. -/
theorem fromSeed_no_root_sample :
    (16 ≤ (List.replicate 16 0).length ∧ (List.replicate 16 0).length ≤ 64) ∧
    (zeroPrimitives.computeHmac MasterSecret (List.replicate 16 0)).length = 64 ∧
    beValue ((zeroPrimitives.computeHmac MasterSecret (List.replicate 16 0)).take 32) = 0 ∧
    MemorySafeHDNodeWallet.fromSeed zeroPrimitives (List.replicate 16 0) =
      .error .invalidPrivateKey ∧
    ∀ root, MemorySafeHDNodeWallet.fromSeed zeroPrimitives (List.replicate 16 0) ≠ .ok root := by
  have h : MemorySafeHDNodeWallet.fromSeed zeroPrimitives (List.replicate 16 0) =
      .error .invalidPrivateKey := by
    rw [fromSeed_eq_new zeroPrimitives _ (by decide) (by decide)]
    exact node_new_invalid zeroPrimitives _ _ _ _ _ _ (by decide)
  refine ⟨by decide, by decide, by decide, h, ?_⟩
  intro root hroot
  rw [h] at hroot
  exact Except.noConfusion hroot

/-- C8, amended: for a seed of 16 to 64 bytes and a 64-byte HMAC output
`I = HMAC-SHA512 (MasterSecret, seed)`, every root that `fromSeed` returns has
depth 0, index 0, path `m`, parent fingerprint `0x00000000`, private scalar
`I[0:32]` and chain code `I[32:64]`.  `fromSeed` returns a root exactly when
`I[0:32]` is in `[1, n-1]` and the base class accepts the guard; when `I[0:32]`
is `0` or not below `n` it fails with the error of the curve library.
`MasterSecret` is the 12 ASCII bytes of `Bitcoin seed` and equals
`MASTER_KEY_SECRET`. -/
theorem fromSeed_root (P : Primitives) (seed : List Nat)
    (hlen : 16 ≤ seed.length ∧ seed.length ≤ 64)
    (hI : (P.computeHmac MasterSecret seed).length = 64) :
    ((∃ root : MemorySafeHDNodeWallet, MemorySafeHDNodeWallet.fromSeed P seed = .ok root) ↔
      ((1 ≤ beValue ((P.computeHmac MasterSecret seed).take 32) ∧
          beValue ((P.computeHmac MasterSecret seed).take 32) < CURVE_n) ∧
        P.acceptsGuard = true)) ∧
    (¬ (1 ≤ beValue ((P.computeHmac MasterSecret seed).take 32) ∧
          beValue ((P.computeHmac MasterSecret seed).take 32) < CURVE_n) →
      MemorySafeHDNodeWallet.fromSeed P seed = .error .invalidPrivateKey) ∧
    (∀ root : MemorySafeHDNodeWallet,
      MemorySafeHDNodeWallet.fromSeed P seed = .ok root →
      root.depth = 0 ∧ root.index = 0 ∧ root.path = some "m" ∧
      root.parentFingerprint = "0x00000000" ∧
      root.signingKey.privateKeyBuffer = some ((P.computeHmac MasterSecret seed).take 32) ∧
      ((P.computeHmac MasterSecret seed).take 32).length = 32 ∧
      root.chainCode = (P.computeHmac MasterSecret seed).drop 32 ∧
      root.chainCode.length = 32) ∧
    MasterSecret = "Bitcoin seed".toList.map Char.toNat ∧
    MasterSecret.length = 12 ∧
    MasterSecret = MASTER_KEY_SECRET := by
  refine ⟨⟨?_, ?_⟩, ?_, ?_, by decide, by decide, by decide⟩
  · rintro ⟨root, h⟩
    obtain ⟨-, -, hv, hg, -⟩ := fromSeed_inv P seed root h
    exact ⟨(validScalar_iff _).mp hv, hg⟩
  · rintro ⟨hv, hg⟩
    exact ⟨_, fromSeed_eq P seed hlen hI ((validScalar_iff _).mpr hv) hg⟩
  · intro hv
    rw [fromSeed_eq_new P seed hlen hI]
    apply node_new_invalid
    cases hc : validScalar ((P.computeHmac MasterSecret seed).take 32)
    · rfl
    · exact absurd ((validScalar_iff _).mp hc) hv
  · intro root h
    obtain ⟨-, h32, -, -, hroot⟩ := fromSeed_inv P seed root h
    subst hroot
    refine ⟨rfl, rfl, rfl, rfl, rfl, h32, rfl, ?_⟩
    simp only [List.length_drop, hI]

theorem fromSeed_root_witness :
    ((16 ≤ vectorSeed.length ∧ vectorSeed.length ≤ 64) ∧
      (vectorPrimitives.computeHmac MasterSecret vectorSeed).length = 64) ∧
    (((∃ root : MemorySafeHDNodeWallet,
        MemorySafeHDNodeWallet.fromSeed vectorPrimitives vectorSeed = .ok root) ↔
      ((1 ≤ beValue ((vectorPrimitives.computeHmac MasterSecret vectorSeed).take 32) ∧
          beValue ((vectorPrimitives.computeHmac MasterSecret vectorSeed).take 32) < CURVE_n) ∧
        vectorPrimitives.acceptsGuard = true)) ∧
    (¬ (1 ≤ beValue ((vectorPrimitives.computeHmac MasterSecret vectorSeed).take 32) ∧
          beValue ((vectorPrimitives.computeHmac MasterSecret vectorSeed).take 32) < CURVE_n) →
      MemorySafeHDNodeWallet.fromSeed vectorPrimitives vectorSeed = .error .invalidPrivateKey) ∧
    (∀ root : MemorySafeHDNodeWallet,
      MemorySafeHDNodeWallet.fromSeed vectorPrimitives vectorSeed = .ok root →
      root.depth = 0 ∧ root.index = 0 ∧ root.path = some "m" ∧
      root.parentFingerprint = "0x00000000" ∧
      root.signingKey.privateKeyBuffer =
        some ((vectorPrimitives.computeHmac MasterSecret vectorSeed).take 32) ∧
      ((vectorPrimitives.computeHmac MasterSecret vectorSeed).take 32).length = 32 ∧
      root.chainCode = (vectorPrimitives.computeHmac MasterSecret vectorSeed).drop 32 ∧
      root.chainCode.length = 32) ∧
    MasterSecret = "Bitcoin seed".toList.map Char.toNat ∧
    MasterSecret.length = 12 ∧
    MasterSecret = MASTER_KEY_SECRET) :=
  ⟨⟨by decide, by decide⟩, fromSeed_root vectorPrimitives vectorSeed (by decide) (by decide)⟩

/-- C9: `fromSeed` fails with the invalid-seed error if and only if the seed is
shorter than 16 bytes or longer than 64 bytes, and then it produces no node. -/
theorem fromSeed_invalid_seed_iff (P : Primitives) (seed : List Nat) :
    (MemorySafeHDNodeWallet.fromSeed P seed = .error (.invalidArgument "invalid seed") ↔
      (seed.length < 16 ∨ seed.length > 64)) ∧
    ((seed.length < 16 ∨ seed.length > 64) →
      ∀ node, MemorySafeHDNodeWallet.fromSeed P seed ≠ .ok node) := by
  have hbad : (seed.length < 16 ∨ seed.length > 64) →
      MemorySafeHDNodeWallet.fromSeed P seed = .error (.invalidArgument "invalid seed") := by
    intro h
    have hr : ¬ (seed.length ≥ 16 ∧ seed.length ≤ 64) := by omega
    unfold MemorySafeHDNodeWallet.fromSeed
    simp only [hr, not_false_eq_true, if_true, bind, Except.bind, throw, throwThe,
      MonadExceptOf.throw]
  refine ⟨⟨?_, hbad⟩, ?_⟩
  · intro h
    by_contra hc
    have hr : ¬ ¬ (seed.length ≥ 16 ∧ seed.length ≤ 64) := by omega
    unfold MemorySafeHDNodeWallet.fromSeed at h
    by_cases h32 : ((P.computeHmac MasterSecret seed).take 32).length = 32
    · simp only [hr, if_false, bind, Except.bind, pure, Except.pure,
        signingKey_new_ok _ h32] at h
      cases hv : validScalar ((P.computeHmac MasterSecret seed).take 32)
      · rw [node_new_invalid P _ _ _ _ _ _ hv] at h
        simp at h
      · cases hg : P.acceptsGuard
        · rw [node_new_guard P _ _ _ _ _ _ hv hg] at h
          simp at h
        · rw [node_new_ok P _ _ _ _ _ _ hv hg] at h
          simp at h
    · simp only [hr, if_false, bind, Except.bind, pure, Except.pure,
        MemorySafeSigningKey.new, h32, ne_eq, not_false_eq_true, if_true] at h
      simp at h
  · intro h node hn
    rw [hbad h] at hn
    exact Except.noConfusion hn

/-- C7: every root node that `fromSeed` returns holds a private scalar strictly
in `[1, n-1]`, never `0` and never `n` or more, whatever the HMAC output is: the
scalar is the first 32 bytes of the output, and the constructor of the base
class, which reads the public key of that scalar, returns no node for a scalar
outside that range. -/
theorem fromSeed_scalar_in_range (P : Primitives) (seed : List Nat)
    (root : MemorySafeHDNodeWallet)
    (h : MemorySafeHDNodeWallet.fromSeed P seed = .ok root) :
    (16 ≤ seed.length ∧ seed.length ≤ 64) ∧
    ∃ key, root.signingKey.privateKeyBuffer = some key ∧
      key = (P.computeHmac MasterSecret seed).take 32 ∧ key.length = 32 ∧
      1 ≤ beValue key ∧ beValue key < CURVE_n := by
  obtain ⟨hlen, h32, hv, -, hroot⟩ := fromSeed_inv P seed root h
  subst hroot
  exact ⟨hlen, _, rfl, rfl, h32, (validScalar_iff _).mp hv⟩

theorem fromSeed_scalar_in_range_witness :
    MemorySafeHDNodeWallet.fromSeed pathPrimitives vectorSeed =
      .ok (vectorRoot.contents vectorMemory) ∧
    (16 ≤ vectorSeed.length ∧ vectorSeed.length ≤ 64) ∧
    ∃ key, (vectorRoot.contents vectorMemory).signingKey.privateKeyBuffer = some key ∧
      key = (pathPrimitives.computeHmac MasterSecret vectorSeed).take 32 ∧ key.length = 32 ∧
      1 ≤ beValue key ∧ beValue key < CURVE_n :=
  ⟨fromSeed_eq pathPrimitives vectorSeed (by decide) (by decide) (by decide) rfl,
    fromSeed_scalar_in_range pathPrimitives vectorSeed (vectorRoot.contents vectorMemory)
      (fromSeed_eq pathPrimitives vectorSeed (by decide) (by decide) (by decide) rfl)⟩

/-- C10, counterexample: from the live node of scalar `2^248`, with an HMAC
output whose first 32 bytes are the group order, so that `IL ≥ n`,
`deriveChild` returns a child node when the base class accepts the guard; the
scalar of the child is in `[1, n-1]`.  When the base class refuses the guard the
call fails with the error of the private constructor, as on every input. -/
theorem deriveChild_order_returns :
    ∃ child,
      ser_I orderPrimitives 0x80000000 highNode.chainCode highNode.publicKey
        highNode.signingKey.privateKeyBuffer = .ok (N, List.replicate 32 0) ∧
      beValue N ≥ CURVE_n ∧
      highNode.deriveChild orderPrimitives 0x80000000 = .ok child ∧
      child.signingKey.privateKeyBuffer = some (0 :: N.drop 1) ∧
      (1 ≤ beValue (0 :: N.drop 1) ∧ beValue (0 :: N.drop 1) < CURVE_n) ∧
      highNode.deriveChild { orderPrimitives with acceptsGuard := false } 0x80000000 =
        .error .privateConstructor := by
  have e : serIData 0x80000000 highNode.publicKey (some (1 :: List.replicate 31 0)) =
      .ok (0 :: (1 :: List.replicate 31 0) ++ [0x80, 0, 0, 0]) := by rfl
  have h := deriveChild_eq orderPrimitives highNode 0x80000000 (1 :: List.replicate 31 0) _
    (by decide) rfl e (by decide) rfl
  have h2 := deriveChild_eq_new { orderPrimitives with acceptsGuard := false } highNode
    0x80000000 (1 :: List.replicate 31 0) _ (by decide) rfl e
  refine ⟨_, ?_, by decide, h, ?_, by decide, ?_⟩
  · rfl
  · decide
  · rw [h2]
    exact node_new_guard _ _ _ _ _ _ _ (by decide) rfl

/-- C10, amended: for a live parent (32-byte scalar, 33-byte public key) and a
uint32 index, `deriveChild` does not compare `IL` with the order and has no
error for an invalid derivation candidate: its outcome depends on the child
scalar that its loop writes.  When that scalar is `0` or not below `n` it
returns no child, with the error of the curve library on the public key; it
returns a child, which holds that scalar, exactly when the scalar is in
`[1, n-1]` and the base class accepts the guard. -/
theorem deriveChild_outcome (P : Primitives) (self : MemorySafeHDNodeWallet)
    (index : Nat) (key : List Nat) (hidx : index ≤ 0xffffffff)
    (hkey : self.signingKey.privateKeyBuffer = some key) (hlen : key.length = 32)
    (hpub : self.publicKey.length = 33) :
    ∃ data,
      serIData index self.publicKey (some key) = .ok data ∧
      ser_I P index self.chainCode self.publicKey self.signingKey.privateKeyBuffer =
        .ok ((P.computeHmac self.chainCode data).take 32,
          (P.computeHmac self.chainCode data).drop 32) ∧
      ((∃ child, self.deriveChild P index = .ok child) ↔
        ((1 ≤ beValue (childBuffer ((P.computeHmac self.chainCode data).take 32) key) ∧
            beValue (childBuffer ((P.computeHmac self.chainCode data).take 32) key) < CURVE_n) ∧
          P.acceptsGuard = true)) ∧
      (¬ (1 ≤ beValue (childBuffer ((P.computeHmac self.chainCode data).take 32) key) ∧
            beValue (childBuffer ((P.computeHmac self.chainCode data).take 32) key) < CURVE_n) →
        self.deriveChild P index = .error .invalidPrivateKey) ∧
      (∀ child, self.deriveChild P index = .ok child →
        child.signingKey.privateKeyBuffer =
          some (childBuffer ((P.computeHmac self.chainCode data).take 32) key)) := by
  have hdata := serIData_eq index self.publicKey key hlen hpub
  refine ⟨_, hdata, ?_, ⟨?_, ?_⟩, ?_, ?_⟩
  · unfold ser_I
    simp only [hkey, hdata, bind, Except.bind, pure, Except.pure]
  · rintro ⟨child, h⟩
    rw [deriveChild_eq_new P self index key _ hidx hkey hdata] at h
    obtain ⟨hv, hg, -⟩ := node_new_inv P _ _ _ _ _ _ child h
    exact ⟨(validScalar_iff _).mp hv, hg⟩
  · rintro ⟨hv, hg⟩
    exact ⟨_, deriveChild_eq P self index key _ hidx hkey hdata ((validScalar_iff _).mpr hv) hg⟩
  · intro hv
    rw [deriveChild_eq_new P self index key _ hidx hkey hdata]
    apply node_new_invalid
    cases hc : validScalar _
    · rfl
    · exact absurd ((validScalar_iff _).mp hc) hv
  · intro child h
    rw [deriveChild_eq_new P self index key _ hidx hkey hdata] at h
    obtain ⟨-, -, hchild⟩ := node_new_inv P _ _ _ _ _ _ child h
    rw [hchild]

theorem deriveChild_outcome_witness :
    ((5 : Nat) ≤ 0xffffffff ∧
      unitNode.signingKey.privateKeyBuffer = some (List.replicate 31 0 ++ [1]) ∧
      (List.replicate 31 0 ++ [1]).length = 32 ∧ unitNode.publicKey.length = 33) ∧
    ∃ data,
      serIData 5 unitNode.publicKey (some (List.replicate 31 0 ++ [1])) = .ok data ∧
      ser_I zeroPrimitives 5 unitNode.chainCode unitNode.publicKey
          unitNode.signingKey.privateKeyBuffer =
        .ok ((zeroPrimitives.computeHmac unitNode.chainCode data).take 32,
          (zeroPrimitives.computeHmac unitNode.chainCode data).drop 32) ∧
      ((∃ child, unitNode.deriveChild zeroPrimitives 5 = .ok child) ↔
        ((1 ≤ beValue (childBuffer ((zeroPrimitives.computeHmac unitNode.chainCode data).take 32)
              (List.replicate 31 0 ++ [1])) ∧
            beValue (childBuffer ((zeroPrimitives.computeHmac unitNode.chainCode data).take 32)
              (List.replicate 31 0 ++ [1])) < CURVE_n) ∧
          zeroPrimitives.acceptsGuard = true)) ∧
      (¬ (1 ≤ beValue (childBuffer ((zeroPrimitives.computeHmac unitNode.chainCode data).take 32)
              (List.replicate 31 0 ++ [1])) ∧
            beValue (childBuffer ((zeroPrimitives.computeHmac unitNode.chainCode data).take 32)
              (List.replicate 31 0 ++ [1])) < CURVE_n) →
        unitNode.deriveChild zeroPrimitives 5 = .error .invalidPrivateKey) ∧
      (∀ child, unitNode.deriveChild zeroPrimitives 5 = .ok child →
        child.signingKey.privateKeyBuffer =
          some (childBuffer ((zeroPrimitives.computeHmac unitNode.chainCode data).take 32)
            (List.replicate 31 0 ++ [1]))) :=
  ⟨⟨by decide, rfl, by decide, by decide⟩,
    deriveChild_outcome zeroPrimitives unitNode 5 (List.replicate 31 0 ++ [1]) (by decide) rfl
      (by decide) (by decide)⟩

/-- C1, evaluation at test vector 1 of BIP32 (seed `000102...0f`, child `m/0'`):
`deriveChild (0x80000000)` on the root returns the scalar
`ecb2e04f...116a6eea`, while `(IL + parentScalar) mod n` is the scalar
`edb2e14f...11a0afea` of the test vector. -/
theorem deriveChild_vector_diverges :
    ∃ root child key,
      MemorySafeHDNodeWallet.fromSeed vectorPrimitives vectorSeed = .ok root ∧
      root.signingKey.privateKeyBuffer = some (vectorMaster.take 32) ∧
      ser_I vectorPrimitives 0x80000000 root.chainCode root.publicKey
        root.signingKey.privateKeyBuffer = .ok (vectorChild.take 32, vectorChild.drop 32) ∧
      root.deriveChild vectorPrimitives 0x80000000 = .ok child ∧
      child.signingKey.privateKeyBuffer = some key ∧
      beValue key = 0xecb2e04f9de67d26dc93b4ecede8d06ed308cd149adc370a061444d8116a6eea ∧
      (beValue (vectorChild.take 32) + beValue (vectorMaster.take 32)) % CURVE_n =
        0xedb2e14f9ee77d26dd93b4ecede8d16ed408ce149b6cd80b0715a2d911a0afea ∧
      beValue key ≠ (beValue (vectorChild.take 32) + beValue (vectorMaster.take 32)) % CURVE_n := by
  have hroot := fromSeed_eq vectorPrimitives vectorSeed (by decide) (by decide) (by decide) rfl
  have e : serIData 0x80000000 (List.replicate 33 2) (some (vectorMaster.take 32)) =
      .ok ([0] ++ vectorMaster.take 32 ++ [0x80, 0, 0, 0]) := by rfl
  have h := deriveChild_eq vectorPrimitives
    (MemorySafeHDNodeWallet.mk ⟨some (vectorMaster.take 32)⟩ "0x00000000"
      (vectorMaster.drop 32) (some "m") 0 0 (List.replicate 33 2) "0x00000000")
    0x80000000 (vectorMaster.take 32) _ (by decide) rfl e (by decide) rfl
  refine ⟨_, _, _, hroot, rfl, ?_, h, rfl, ?_, by decide, ?_⟩
  · rfl
  · decide
  · decide

/-! ## Construction and disposal of signing keys -/

theorem signingKeyObject_new_ok (mem : Memory) (ref : Nat) (h : (mem.read ref).length = 32) :
    SigningKeyObject.new mem ref = .ok { privateKeyBuffer := some ref } := by
  unfold SigningKeyObject.new
  rw [if_neg (by omega)]

theorem read_write_same (mem : Memory) (ref : Nat) (bytes : List Nat)
    (h : ref < mem.cells.length) : (mem.write ref bytes).read ref = bytes := by
  simp [Memory.read, Memory.write, List.getElem?_set_self h]

theorem read_write_other (mem : Memory) (ref other : Nat) (bytes : List Nat)
    (h : other ≠ ref) : (mem.write ref bytes).read other = mem.read other := by
  simp [Memory.read, Memory.write, List.getElem?_set_ne (Ne.symm h)]

theorem read_length_pos (mem : Memory) (ref : Nat) (h : (mem.read ref).length = 32) :
    ref < mem.cells.length := by
  by_contra hc
  have h1 : mem.cells[ref]? = none := List.getElem?_eq_none (by omega)
  simp [Memory.read, h1] at h

theorem signingKey_dispose_inv (mem mem1 : Memory) (key key1 : SigningKeyObject)
    (h : key.dispose mem = .ok (mem1, key1)) :
    ∃ ref, key.privateKeyBuffer = some ref ∧
      mem1 = mem.write ref (List.replicate (mem.read ref).length 0) ∧
      key1.privateKeyBuffer = none := by
  unfold SigningKeyObject.dispose sodium_memzero at h
  cases hk : key.privateKeyBuffer with
  | none => simp [hk, bind, Except.bind] at h
  | some ref =>
    simp only [hk, bind, Except.bind, pure, Except.pure, Except.ok.injEq, Prod.mk.injEq] at h
    exact ⟨ref, rfl, h.1.symm, by rw [← h.2]⟩

theorem node_dispose_inv (mem mem1 : Memory) (node node1 : HDNodeObject)
    (h : node.dispose mem = .ok (mem1, node1)) :
    ∃ key1, node.signingKey.dispose mem = .ok (mem1, key1) ∧
      node1 = { node with signingKey := key1 } := by
  unfold HDNodeObject.dispose at h
  cases hk : node.signingKey.dispose mem with
  | error e => simp [hk, bind, Except.bind] at h
  | ok r =>
    obtain ⟨m, k⟩ := r
    simp only [hk, bind, Except.bind, pure, Except.pure, Except.ok.injEq, Prod.mk.injEq] at h
    exact ⟨k, by rw [h.1], h.2.symm⟩

/-- C11, counterexample: the constructor accepts the 32 zero bytes, of value
`0`, and the 32 bytes of the group order, of value `n`. -/
theorem signingKey_accepts_invalid_scalar :
    (MemorySafeSigningKey.new (List.replicate 32 0) =
        .ok { privateKeyBuffer := some (List.replicate 32 0) } ∧
      beValue (List.replicate 32 0) = 0) ∧
    (MemorySafeSigningKey.new N = .ok { privateKeyBuffer := some N } ∧
      beValue N ≥ CURVE_n) :=
  ⟨⟨rfl, by decide⟩, ⟨rfl, by decide⟩⟩

/-- C11, amended: the constructor of `MemorySafeSigningKey` checks the length
only: on a `Uint8Array` it succeeds exactly when the length is 32, and the key
then holds the array whatever its value; otherwise it fails with the
key-length error. -/
theorem signingKey_new_iff (buffer : List Nat) :
    (MemorySafeSigningKey.new buffer = .ok { privateKeyBuffer := some buffer } ↔
      buffer.length = 32) ∧
    (MemorySafeSigningKey.new buffer = .error (.error "The private key must be 32 bytes long.") ↔
      buffer.length ≠ 32) := by
  unfold MemorySafeSigningKey.new
  by_cases h : buffer.length = 32
  · have h1 : ¬ buffer.length ≠ 32 := not_not.mpr h
    simp [h]
  · simp [h]

/-- C12: a key constructed from a 32-byte array stores that very array; when
`dispose` returns, the 32 bytes of the array are zero, the key holds no
reference, and no other array has changed. -/
theorem dispose_zeroes_buffer (mem mem2 : Memory) (ref : Nat)
    (h1 : (mem.read ref).length = 32) (h2 : (mem2.read ref).length = 32) :
    ∃ key, SigningKeyObject.new mem ref = .ok key ∧ key.privateKeyBuffer = some ref ∧
      ∃ mem3 key3, key.dispose mem2 = .ok (mem3, key3) ∧
        mem3.read ref = List.replicate 32 0 ∧ key3.privateKeyBuffer = none ∧
        ∀ other, other ≠ ref → mem3.read other = mem2.read other := by
  refine ⟨_, signingKeyObject_new_ok mem ref h1, rfl, _, _, rfl, ?_, rfl, ?_⟩
  · rw [read_write_same _ _ _ (read_length_pos mem2 ref h2), h2]
  · intro other ho
    exact read_write_other _ _ _ _ ho

theorem dispose_zeroes_buffer_witness :
    ((sampleMemory.read 0).length = 32 ∧ (sampleMemory.read 0).length = 32) ∧
    ∃ key, SigningKeyObject.new sampleMemory 0 = .ok key ∧ key.privateKeyBuffer = some 0 ∧
      ∃ mem3 key3, key.dispose sampleMemory = .ok (mem3, key3) ∧
        mem3.read 0 = List.replicate 32 0 ∧ key3.privateKeyBuffer = none ∧
        ∀ other, other ≠ 0 → mem3.read other = sampleMemory.read other :=
  ⟨⟨by decide, by decide⟩, dispose_zeroes_buffer sampleMemory sampleMemory 0 (by decide)
    (by decide)⟩

/-- C13: after `dispose`, `sign` (on any digest), `publicKey`,
`compressedPublicKey`, `publicKeyBuffer` and `computeSharedSecret` all fail. -/
theorem disposed_key_operations_fail (P : Primitives) (C : CurvePrimitives)
    (mem mem1 : Memory) (key key1 : SigningKeyObject)
    (h : key.dispose mem = .ok (mem1, key1)) (digest other : List Nat) :
    (∃ e, (key1.contents mem1).sign C digest = .error e) ∧
    (∃ e, (key1.contents mem1).publicKey P = .error e) ∧
    (∃ e, (key1.contents mem1).compressedPublicKey P = .error e) ∧
    (∃ e, (key1.contents mem1).publicKeyBuffer P = .error e) ∧
    (∃ e, (key1.contents mem1).computeSharedSecret C other = .error e) := by
  obtain ⟨ref, -, -, hnone⟩ := signingKey_dispose_inv mem mem1 key key1 h
  have hc : key1.contents mem1 = { privateKeyBuffer := none } := by
    simp [SigningKeyObject.contents, hnone]
  rw [hc]
  refine ⟨?_, ⟨_, rfl⟩, ⟨_, rfl⟩, ⟨_, rfl⟩, ?_⟩
  · unfold MemorySafeSigningKey.sign
    by_cases hd : digest.length = 32
    · exact ⟨_, by simp [hd, bind, Except.bind, throw, throwThe, MonadExceptOf.throw]; rfl⟩
    · exact ⟨_, by simp [hd, bind, Except.bind, throw, throwThe, MonadExceptOf.throw]; rfl⟩
  · unfold MemorySafeSigningKey.computeSharedSecret
    cases C.computePublicKey other with
    | error e => exact ⟨e, rfl⟩
    | ok v => exact ⟨_, rfl⟩

theorem disposed_key_operations_fail_witness :
    (sampleKey.dispose sampleMemory =
      .ok (sampleMemory.write 0 (List.replicate 32 0), { privateKeyBuffer := none })) ∧
    ((∃ e, (SigningKeyObject.contents (sampleMemory.write 0 (List.replicate 32 0))
        { privateKeyBuffer := none }).sign sampleCurve sampleScalar = .error e) ∧
    (∃ e, (SigningKeyObject.contents (sampleMemory.write 0 (List.replicate 32 0))
        { privateKeyBuffer := none }).publicKey zeroPrimitives = .error e) ∧
    (∃ e, (SigningKeyObject.contents (sampleMemory.write 0 (List.replicate 32 0))
        { privateKeyBuffer := none }).compressedPublicKey zeroPrimitives = .error e) ∧
    (∃ e, (SigningKeyObject.contents (sampleMemory.write 0 (List.replicate 32 0))
        { privateKeyBuffer := none }).publicKeyBuffer zeroPrimitives = .error e) ∧
    (∃ e, (SigningKeyObject.contents (sampleMemory.write 0 (List.replicate 32 0))
        { privateKeyBuffer := none }).computeSharedSecret sampleCurve sampleScalar =
          .error e)) :=
  ⟨rfl, disposed_key_operations_fail zeroPrimitives sampleCurve sampleMemory _ sampleKey _ rfl
    sampleScalar sampleScalar⟩

/-- C14, counterexample: on the sample key and on the sample node, the first
`dispose` succeeds and the second `dispose` fails, because `sodium_memzero` is
called with `null`. -/
theorem second_dispose_fails_sample :
    (∃ mem1 key1, sampleKey.dispose sampleMemory = .ok (mem1, key1) ∧
      key1.dispose mem1 = .error .nullArgument) ∧
    (∃ mem1 node1, sampleNode.dispose sampleMemory = .ok (mem1, node1) ∧
      node1.dispose mem1 = .error .nullArgument) :=
  ⟨⟨_, _, rfl, rfl⟩, ⟨_, _, rfl, rfl⟩⟩

/-- C14, amended: after a first `dispose`, a second `dispose` of a signing key,
and of a node that owns one, raises an error (`sodium_memzero` receives `null`)
and changes nothing: the key stays without a buffer. -/
theorem second_dispose_fails (mem mem1 memN memN1 : Memory) (key key1 : SigningKeyObject)
    (node node1 : HDNodeObject) (hk : key.dispose mem = .ok (mem1, key1))
    (hn : node.dispose memN = .ok (memN1, node1)) :
    key1.privateKeyBuffer = none ∧ key1.dispose mem1 = .error .nullArgument ∧
    node1.signingKey.privateKeyBuffer = none ∧ node1.dispose memN1 = .error .nullArgument := by
  obtain ⟨-, -, -, hnone⟩ := signingKey_dispose_inv mem mem1 key key1 hk
  obtain ⟨k1, hk1, hnode⟩ := node_dispose_inv memN memN1 node node1 hn
  obtain ⟨-, -, -, hnone1⟩ := signingKey_dispose_inv memN memN1 node.signingKey k1 hk1
  have h1 : key1.dispose mem1 = .error .nullArgument := by
    unfold SigningKeyObject.dispose sodium_memzero
    rw [hnone]; rfl
  have h2 : node1.signingKey.privateKeyBuffer = none := by rw [hnode]; exact hnone1
  refine ⟨hnone, h1, h2, ?_⟩
  unfold HDNodeObject.dispose SigningKeyObject.dispose sodium_memzero
  rw [h2]; rfl

theorem second_dispose_fails_witness :
    (sampleKey.dispose sampleMemory =
        .ok (sampleMemory.write 0 (List.replicate 32 0), { privateKeyBuffer := none }) ∧
      sampleNode.dispose sampleMemory =
        .ok (sampleMemory.write 0 (List.replicate 32 0),
          { sampleNode with signingKey := { privateKeyBuffer := none } })) ∧
    ((SigningKeyObject.mk none).privateKeyBuffer = none ∧
      (SigningKeyObject.mk none).dispose (sampleMemory.write 0 (List.replicate 32 0)) =
        .error .nullArgument ∧
      ({ sampleNode with signingKey := { privateKeyBuffer := none } } :
        HDNodeObject).signingKey.privateKeyBuffer = none ∧
      ({ sampleNode with signingKey := { privateKeyBuffer := none } } : HDNodeObject).dispose
        (sampleMemory.write 0 (List.replicate 32 0)) = .error .nullArgument) :=
  ⟨⟨rfl, rfl⟩, second_dispose_fails sampleMemory _ sampleMemory _ sampleKey _ sampleNode _
    rfl rfl⟩

/-- C15: on a digest whose length is not 32 bytes, `sign` fails with the
invalid-digest-length argument error, whatever the key and the signing
primitive are. -/
theorem sign_invalid_digest_length (C : CurvePrimitives) (self : MemorySafeSigningKey)
    (digest : List Nat) (h : digest.length ≠ 32) :
    self.sign C digest = .error (.invalidArgument "invalid digest length") := by
  unfold MemorySafeSigningKey.sign
  simp only [h, not_false_eq_true, if_true, bind, Except.bind, throw, throwThe,
    MonadExceptOf.throw]

theorem sign_invalid_digest_length_witness :
    (List.replicate 31 1).length ≠ 32 ∧
    (MemorySafeSigningKey.mk (some sampleScalar)).sign sampleCurve (List.replicate 31 1) =
      .error (.invalidArgument "invalid digest length") :=
  ⟨by decide, sign_invalid_digest_length sampleCurve _ (List.replicate 31 1) (by decide)⟩

/-- C16: on a node whose signing key has been disposed, `deriveChild` with an
index whose top bit is set fails with the error of `ser_I`, cannot derive child
of neutered node, and returns no child. -/
theorem deriveChild_disposed_hardened_fails (P : Primitives) (mem mem1 : Memory)
    (node node1 : HDNodeObject) (h : node.dispose mem = .ok (mem1, node1)) (index : Nat)
    (h1 : 0x80000000 ≤ index) (h2 : index ≤ 0xffffffff) :
    node1.deriveChild P mem1 index =
      .error (.unsupportedOperation "cannot derive child of neutered node") ∧
    (node1.contents mem1).deriveChild P index =
      .error (.unsupportedOperation "cannot derive child of neutered node") := by
  obtain ⟨k1, hk1, hnode⟩ := node_dispose_inv mem mem1 node node1 h
  obtain ⟨-, -, -, hnone⟩ := signingKey_dispose_inv mem mem1 node.signingKey k1 hk1
  have hkey : node1.signingKey.privateKeyBuffer = none := by rw [hnode]; exact hnone
  have hh : isHardened index = true := by
    rw [isHardened_eq index h2]; exact decide_eq_true (by omega)
  have hr : ¬ ¬ index ≤ 0xffffffff := not_not.mpr h2
  have hser : ∀ publicKey, serIData index publicKey none =
      .error (.unsupportedOperation "cannot derive child of neutered node") := by
    intro publicKey
    unfold serIData
    simp only [hh, if_true, bind, Except.bind, throw, throwThe, MonadExceptOf.throw]
  constructor
  · unfold HDNodeObject.deriveChild
    simp only [hr, if_false, hkey, Option.map_none', hser, bind, Except.bind, pure,
      Except.pure, Memory.alloc]
  · unfold MemorySafeHDNodeWallet.deriveChild ser_I
    simp only [hr, if_false, HDNodeObject.contents, SigningKeyObject.contents, hkey,
      Option.map_none', hser, bind, Except.bind, pure, Except.pure]

theorem deriveChild_disposed_hardened_fails_witness :
    (sampleNode.dispose sampleMemory =
        .ok (sampleMemory.write 0 (List.replicate 32 0),
          { sampleNode with signingKey := { privateKeyBuffer := none } }) ∧
      (0x80000000 : Nat) ≤ 0x80000002 ∧ (0x80000002 : Nat) ≤ 0xffffffff) ∧
    (({ sampleNode with signingKey := { privateKeyBuffer := none } } : HDNodeObject).deriveChild
        zeroPrimitives (sampleMemory.write 0 (List.replicate 32 0)) 0x80000002 =
      .error (.unsupportedOperation "cannot derive child of neutered node") ∧
    (HDNodeObject.contents (sampleMemory.write 0 (List.replicate 32 0))
        { sampleNode with signingKey := { privateKeyBuffer := none } }).deriveChild
        zeroPrimitives 0x80000002 =
      .error (.unsupportedOperation "cannot derive child of neutered node")) :=
  ⟨⟨rfl, by decide, by decide⟩,
    deriveChild_disposed_hardened_fails zeroPrimitives sampleMemory _ sampleNode _ rfl
      0x80000002 (by decide) (by decide)⟩

/-! ## `deriveChild` on objects -/

theorem alloc_write (mem : Memory) (a b : List Nat) :
    (mem.alloc a).1.write (mem.alloc a).2 b = (mem.alloc b).1 := by
  simp [Memory.alloc, Memory.write]

theorem alloc_read_new (mem : Memory) (b : List Nat) :
    (mem.alloc b).1.read (mem.alloc b).2 = b := by
  simp [Memory.alloc, Memory.read]

theorem alloc_read_old (mem : Memory) (b : List Nat) (ref : Nat) (h : ref < mem.cells.length) :
    (mem.alloc b).1.read ref = mem.read ref := by
  simp [Memory.alloc, Memory.read, List.getElem?_append_left h]

theorem alloc_cells (mem : Memory) (b : List Nat) :
    (mem.alloc b).1.cells = mem.cells ++ [b] := rfl

theorem alloc_ref (mem : Memory) (b : List Nat) : (mem.alloc b).2 = mem.cells.length := rfl

theorem read_append_new (cells l : List (List Nat)) (k : Nat) :
    (Memory.mk (cells ++ l)).read (cells.length + k) = (l[k]?).getD [] := by
  simp [Memory.read, List.getElem?_append_right]

theorem read_append_first (cells l : List (List Nat)) :
    (Memory.mk (cells ++ l)).read cells.length = (l[0]?).getD [] := by
  simpa using read_append_new cells l 0

theorem read_alloc_last (mem : Memory) (a b c d e : List Nat) :
    (Memory.mk (mem.cells ++ [a, b, c, d, e])).read (mem.cells.length + 4) = e := by
  simp [read_append_new]

theorem deriveChildObject_bad_index (P : Primitives) (mem : Memory) (self : HDNodeObject)
    (index : Nat) (hidx : ¬ index ≤ 0xffffffff) :
    self.deriveChild P mem index = .error (.invalidArgument "invalid index") := by
  unfold HDNodeObject.deriveChild
  rw [if_pos hidx]
  rfl

theorem deriveChild_bad_index (P : Primitives) (self : MemorySafeHDNodeWallet)
    (index : Nat) (hidx : ¬ index ≤ 0xffffffff) :
    self.deriveChild P index = .error (.invalidArgument "invalid index") := by
  unfold MemorySafeHDNodeWallet.deriveChild
  rw [if_pos hidx]
  rfl

theorem deriveChild_ser_error (P : Primitives) (self : MemorySafeHDNodeWallet) (index : Nat)
    (key : List Nat) (e : Error) (hidx : index ≤ 0xffffffff)
    (hkey : self.signingKey.privateKeyBuffer = some key)
    (hdata : serIData index self.publicKey (some key) = .error e) :
    self.deriveChild P index = .error e := by
  have hr : ¬ ¬ index ≤ 0xffffffff := not_not.mpr hidx
  unfold MemorySafeHDNodeWallet.deriveChild ser_I
  simp only [hr, if_false, hkey, hdata, bind, Except.bind, pure, Except.pure]

theorem deriveChildObject_ser_error (P : Primitives) (mem : Memory) (self : HDNodeObject)
    (index ref : Nat) (e : Error) (hidx : index ≤ 0xffffffff)
    (hkey : self.signingKey.privateKeyBuffer = some ref) (hlt : ref < mem.cells.length)
    (hdata : serIData index self.publicKey (some (mem.read ref)) = .error e) :
    self.deriveChild P mem index = .error e := by
  have hr : ¬ ¬ index ≤ 0xffffffff := not_not.mpr hidx
  have hold : ∀ b, (mem.alloc b).1.read ref = mem.read ref :=
    fun b => alloc_read_old mem b ref hlt
  unfold HDNodeObject.deriveChild
  simp only [hr, if_false, hkey, Option.map_some', hold, hdata, bind, Except.bind, pure,
    Except.pure]

theorem deriveChildObject_eq_new (P : Primitives) (mem : Memory) (self : HDNodeObject)
    (index ref : Nat) (data : List Nat) (hidx : index ≤ 0xffffffff)
    (hkey : self.signingKey.privateKeyBuffer = some ref) (hlt : ref < mem.cells.length)
    (hdata : serIData index self.publicKey (some (mem.read ref)) = .ok data) :
    self.deriveChild P mem index =
      if validScalar (childBuffer ((P.computeHmac self.chainCode data).take 32) (mem.read ref)) =
          false then .error .invalidPrivateKey
      else if P.acceptsGuard = false then .error .privateConstructor
      else
        .ok ({ cells := mem.cells ++
                [data, P.computeHmac self.chainCode data,
                 (P.computeHmac self.chainCode data).take 32,
                 (P.computeHmac self.chainCode data).drop 32,
                 childBuffer ((P.computeHmac self.chainCode data).take 32) (mem.read ref)] },
             { signingKey := { privateKeyBuffer := some (mem.cells.length + 4) },
               parentFingerprint := self.fingerprint,
               chainCode := (P.computeHmac self.chainCode data).drop 32,
               path :=
                 (match self.path with
                  | some p =>
                    if p ≠ "" then
                      some (p ++ "/" ++ toString (Nat.land (index % 2 ^ 32) 0x7fffffff) ++
                        (if isHardened index then "'" else ""))
                    else some p
                  | none => none),
               index := index, depth := self.depth + 1,
               publicKey := P.getPublicKey
                 (childBuffer ((P.computeHmac self.chainCode data).take 32) (mem.read ref)) true,
               fingerprint := P.fingerprint (P.getPublicKey
                 (childBuffer ((P.computeHmac self.chainCode data).take 32) (mem.read ref))
                 true) }) := by
  have hr : ¬ ¬ index ≤ 0xffffffff := not_not.mpr hidx
  have hold : ∀ b, (mem.alloc b).1.read ref = mem.read ref :=
    fun b => alloc_read_old mem b ref hlt
  have hrd : ∀ (l : List (List Nat)), (Memory.mk (mem.cells ++ l)).read ref = mem.read ref := by
    intro l
    simp [Memory.read, List.getElem?_append_left hlt]
  unfold HDNodeObject.deriveChild
  simp only [hr, if_false, hkey, Option.map_some', hold, hdata, bind, Except.bind, pure,
    Except.pure, alloc_write]
  simp only [Memory.alloc, Memory.write, List.append_assoc, List.singleton_append,
    List.length_append, List.length_cons, List.length_nil]
  simp only [hrd, read_append_new, read_append_first, List.cons_append, List.nil_append,
    Nat.zero_add, List.getElem?_cons_zero, List.getElem?_cons_succ, Option.getD_some,
    Nat.add_assoc, Nat.reduceAdd]
  rw [signingKeyObject_new_ok _ _ (by rw [read_alloc_last]; exact childBuffer_length _ _)]
  simp only [HDNodeObject.new, read_alloc_last]
  split_ifs <;> rfl

theorem deriveChildObject_refines (P : Primitives) (mem : Memory) (self : HDNodeObject)
    (index ref : Nat) (hkey : self.signingKey.privateKeyBuffer = some ref)
    (hlt : ref < mem.cells.length) :
    (self.deriveChild P mem index).map (fun r => r.2.contents r.1) =
      (self.contents mem).deriveChild P index := by
  have hc : (self.contents mem).signingKey.privateKeyBuffer = some (mem.read ref) := by
    simp [HDNodeObject.contents, SigningKeyObject.contents, hkey]
  by_cases hidx : index ≤ 0xffffffff
  · cases hd : serIData index self.publicKey (some (mem.read ref)) with
    | error e =>
      rw [deriveChildObject_ser_error P mem self index ref e hidx hkey hlt hd,
        deriveChild_ser_error P (self.contents mem) index (mem.read ref) e hidx hc hd]
      rfl
    | ok data =>
      rw [deriveChildObject_eq_new P mem self index ref data hidx hkey hlt hd,
        deriveChild_eq_new P (self.contents mem) index (mem.read ref) data hidx hc hd]
      simp only [MemorySafeHDNodeWallet.new, HDNodeObject.contents]
      split_ifs <;>
        simp [Except.map, HDNodeObject.contents, SigningKeyObject.contents, read_alloc_last]
  · rw [deriveChildObject_bad_index P mem self index hidx,
      deriveChild_bad_index P (self.contents mem) index hidx]
    rfl

theorem deriveChildObject_frame (P : Primitives) (mem : Memory) (self : HDNodeObject)
    (index ref : Nat) (mem1 : Memory) (child : HDNodeObject)
    (hkey : self.signingKey.privateKeyBuffer = some ref) (hlt : ref < mem.cells.length)
    (h : self.deriveChild P mem index = .ok (mem1, child)) :
    ∀ r, r < mem.cells.length → mem1.read r = mem.read r := by
  by_cases hidx : index ≤ 0xffffffff
  · cases hd : serIData index self.publicKey (some (mem.read ref)) with
    | error e =>
      rw [deriveChildObject_ser_error P mem self index ref e hidx hkey hlt hd] at h
      exact Except.noConfusion h
    | ok data =>
      rw [deriveChildObject_eq_new P mem self index ref data hidx hkey hlt hd] at h
      split_ifs at h
      all_goals
        have hm := (Prod.mk.inj (Except.ok.inj h)).1
        intro r hr
        rw [← hm]
        simp [Memory.read, List.getElem?_append_left hr]
  · rw [deriveChildObject_bad_index P mem self index hidx] at h
    exact Except.noConfusion h

/-! ## Statements on the child node -/

/-- C17: for a live node and a uint32 index, every node that `deriveChild`
returns has the parent's depth plus one, the parent's fingerprint as parent
fingerprint, the requested index, and as chain code the bytes `IR = I[32:64]` of
the HMAC output that `ser_I` returns, 32 bytes for a 64-byte output; and
`deriveChild` returns a node when the child scalar is in `[1, n-1]` and the base
class accepts the guard. -/
theorem deriveChild_metadata (P : Primitives) (self : MemorySafeHDNodeWallet) (index : Nat)
    (key : List Nat) (hidx : index ≤ 0xffffffff)
    (hkey : self.signingKey.privateKeyBuffer = some key) (hlen : key.length = 32)
    (hpub : self.publicKey.length = 33) :
    ∃ data,
      serIData index self.publicKey (some key) = .ok data ∧
      ser_I P index self.chainCode self.publicKey self.signingKey.privateKeyBuffer =
        .ok ((P.computeHmac self.chainCode data).take 32,
          (P.computeHmac self.chainCode data).drop 32) ∧
      ((1 ≤ beValue (childBuffer ((P.computeHmac self.chainCode data).take 32) key) ∧
          beValue (childBuffer ((P.computeHmac self.chainCode data).take 32) key) < CURVE_n) →
        P.acceptsGuard = true → ∃ child, self.deriveChild P index = .ok child) ∧
      ∀ child, self.deriveChild P index = .ok child →
        child.depth = self.depth + 1 ∧
        child.parentFingerprint = self.fingerprint ∧
        child.index = index ∧
        child.chainCode = (P.computeHmac self.chainCode data).drop 32 ∧
        ((P.computeHmac self.chainCode data).length = 64 → child.chainCode.length = 32) := by
  have hdata := serIData_eq index self.publicKey key hlen hpub
  refine ⟨_, hdata, ?_, ?_, ?_⟩
  · unfold ser_I
    simp only [hkey, hdata, bind, Except.bind, pure, Except.pure]
  · intro hv hg
    exact ⟨_, deriveChild_eq P self index key _ hidx hkey hdata ((validScalar_iff _).mpr hv) hg⟩
  · intro child h
    rw [deriveChild_eq_new P self index key _ hidx hkey hdata] at h
    obtain ⟨-, -, hchild⟩ := node_new_inv P _ _ _ _ _ _ child h
    subst hchild
    refine ⟨rfl, rfl, rfl, rfl, ?_⟩
    intro hI
    simp only [List.length_drop, hI]

theorem deriveChild_metadata_witness :
    ((7 : Nat) ≤ 0xffffffff ∧
      unitNode.signingKey.privateKeyBuffer = some (List.replicate 31 0 ++ [1]) ∧
      (List.replicate 31 0 ++ [1]).length = 32 ∧ unitNode.publicKey.length = 33) ∧
    ∃ data,
      serIData 7 unitNode.publicKey (some (List.replicate 31 0 ++ [1])) = .ok data ∧
      ser_I zeroPrimitives 7 unitNode.chainCode unitNode.publicKey
          unitNode.signingKey.privateKeyBuffer =
        .ok ((zeroPrimitives.computeHmac unitNode.chainCode data).take 32,
          (zeroPrimitives.computeHmac unitNode.chainCode data).drop 32) ∧
      ((1 ≤ beValue (childBuffer ((zeroPrimitives.computeHmac unitNode.chainCode data).take 32)
            (List.replicate 31 0 ++ [1])) ∧
          beValue (childBuffer ((zeroPrimitives.computeHmac unitNode.chainCode data).take 32)
            (List.replicate 31 0 ++ [1])) < CURVE_n) →
        zeroPrimitives.acceptsGuard = true →
        ∃ child, unitNode.deriveChild zeroPrimitives 7 = .ok child) ∧
      ∀ child, unitNode.deriveChild zeroPrimitives 7 = .ok child →
        child.depth = unitNode.depth + 1 ∧
        child.parentFingerprint = unitNode.fingerprint ∧
        child.index = 7 ∧
        child.chainCode = (zeroPrimitives.computeHmac unitNode.chainCode data).drop 32 ∧
        ((zeroPrimitives.computeHmac unitNode.chainCode data).length = 64 →
          child.chainCode.length = 32) :=
  ⟨⟨by decide, rfl, by decide, by decide⟩,
    deriveChild_metadata zeroPrimitives unitNode 7 (List.replicate 31 0 ++ [1]) (by decide) rfl
      (by decide) (by decide)⟩

/-- C18: for a live node and a uint32 index `i`, every child that `deriveChild`
returns has, when the parent has a non-empty path `p`, the path `p`, a slash,
the decimal form of `i mod 2^31`, and an apostrophe exactly when `i ≥ 2^31`;
when the parent has no path, the child has none.  `deriveChild` returns a child
when the child scalar is in `[1, n-1]` and the base class accepts the guard. -/
theorem deriveChild_path (P : Primitives) (self : MemorySafeHDNodeWallet) (index : Nat)
    (key : List Nat) (hidx : index ≤ 0xffffffff)
    (hkey : self.signingKey.privateKeyBuffer = some key) (hlen : key.length = 32)
    (hpub : self.publicKey.length = 33) :
    ∃ data,
      serIData index self.publicKey (some key) = .ok data ∧
      ((1 ≤ beValue (childBuffer ((P.computeHmac self.chainCode data).take 32) key) ∧
          beValue (childBuffer ((P.computeHmac self.chainCode data).take 32) key) < CURVE_n) →
        P.acceptsGuard = true → ∃ child, self.deriveChild P index = .ok child) ∧
      ∀ child, self.deriveChild P index = .ok child →
        (∀ p, self.path = some p → p ≠ "" →
          child.path = some (p ++ "/" ++ toString (index % 2 ^ 31) ++
            (if 2 ^ 31 ≤ index then "'" else ""))) ∧
        (self.path = none → child.path = none) := by
  have hdata := serIData_eq index self.publicKey key hlen hpub
  have hmask : Nat.land (index % 2 ^ 32) 0x7fffffff = index % 2 ^ 31 := by
    have h1 : index % 2 ^ 32 = index := Nat.mod_eq_of_lt (by omega)
    rw [h1]
    exact Nat.and_pow_two_sub_one_eq_mod index 31
  refine ⟨_, hdata, ?_, ?_⟩
  · intro hv hg
    exact ⟨_, deriveChild_eq P self index key _ hidx hkey hdata ((validScalar_iff _).mpr hv) hg⟩
  · intro child h
    rw [deriveChild_eq_new P self index key _ hidx hkey hdata] at h
    obtain ⟨-, -, hchild⟩ := node_new_inv P _ _ _ _ _ _ child h
    subst hchild
    refine ⟨?_, ?_⟩
    · intro p hp hne
      simp only [hp, hne, ne_eq, not_false_eq_true, if_true, hmask, isHardened_eq index hidx,
        decide_eq_true_eq]
    · intro hp
      simp only [hp]

theorem deriveChild_path_witness :
    ((0x80000003 : Nat) ≤ 0xffffffff ∧
      unitNode.signingKey.privateKeyBuffer = some (List.replicate 31 0 ++ [1]) ∧
      (List.replicate 31 0 ++ [1]).length = 32 ∧ unitNode.publicKey.length = 33) ∧
    ∃ data,
      serIData 0x80000003 unitNode.publicKey (some (List.replicate 31 0 ++ [1])) = .ok data ∧
      ((1 ≤ beValue (childBuffer ((zeroPrimitives.computeHmac unitNode.chainCode data).take 32)
            (List.replicate 31 0 ++ [1])) ∧
          beValue (childBuffer ((zeroPrimitives.computeHmac unitNode.chainCode data).take 32)
            (List.replicate 31 0 ++ [1])) < CURVE_n) →
        zeroPrimitives.acceptsGuard = true →
        ∃ child, unitNode.deriveChild zeroPrimitives 0x80000003 = .ok child) ∧
      ∀ child, unitNode.deriveChild zeroPrimitives 0x80000003 = .ok child →
        (∀ p, unitNode.path = some p → p ≠ "" →
          child.path = some (p ++ "/" ++ toString (0x80000003 % 2 ^ 31) ++
            (if 2 ^ 31 ≤ 0x80000003 then "'" else ""))) ∧
        (unitNode.path = none → child.path = none) :=
  ⟨⟨by decide, rfl, by decide, by decide⟩,
    deriveChild_path zeroPrimitives unitNode 0x80000003 (List.replicate 31 0 ++ [1])
      (by decide) rfl (by decide) (by decide)⟩

/-- C19: for a live node and indices `i` and `j`, a call `deriveChild (i)` that
returns has written to none of the arrays that existed before the call, so the
parent's scalar bytes, chain code, depth, path and fingerprint are unchanged,
and the outcome of `deriveChild (j)`, the node returned or the failure, is the
same whether or not `deriveChild (i)` was called first. -/
theorem deriveChild_leaves_parent (P : Primitives) (mem : Memory) (self : HDNodeObject)
    (i j ref : Nat) (mem1 : Memory) (child1 : HDNodeObject)
    (hkey : self.signingKey.privateKeyBuffer = some ref) (hlen : (mem.read ref).length = 32)
    (h1 : self.deriveChild P mem i = .ok (mem1, child1)) :
    (∀ r, r < mem.cells.length → mem1.read r = mem.read r) ∧
    mem1.read ref = mem.read ref ∧
    self.contents mem1 = self.contents mem ∧
    (self.deriveChild P mem1 j).map (fun r => r.2.contents r.1) =
      (self.deriveChild P mem j).map (fun r => r.2.contents r.1) := by
  have hlt := read_length_pos mem ref hlen
  have hframe := deriveChildObject_frame P mem self i ref mem1 child1 hkey hlt h1
  have href : mem1.read ref = mem.read ref := hframe ref hlt
  have hsame : self.contents mem1 = self.contents mem := by
    simp [HDNodeObject.contents, SigningKeyObject.contents, hkey, href]
  have hlt1 : ref < mem1.cells.length :=
    read_length_pos mem1 ref (by rw [href]; exact hlen)
  refine ⟨hframe, href, hsame, ?_⟩
  rw [deriveChildObject_refines P mem1 self j ref hkey hlt1,
    deriveChildObject_refines P mem self j ref hkey hlt, hsame]

set_option maxRecDepth 100000 in
theorem deriveChild_leaves_parent_witness :
    (sampleNode.signingKey.privateKeyBuffer = some 0 ∧ (sampleMemory.read 0).length = 32 ∧
      sampleNode.deriveChild zeroPrimitives sampleMemory 5 = .ok (sampleMemoryAfter, sampleChild)) ∧
    ((∀ r, r < sampleMemory.cells.length → sampleMemoryAfter.read r = sampleMemory.read r) ∧
      sampleMemoryAfter.read 0 = sampleMemory.read 0 ∧
      sampleNode.contents sampleMemoryAfter = sampleNode.contents sampleMemory ∧
      (sampleNode.deriveChild zeroPrimitives sampleMemoryAfter 0x80000001).map
          (fun r => r.2.contents r.1) =
        (sampleNode.deriveChild zeroPrimitives sampleMemory 0x80000001).map
          (fun r => r.2.contents r.1)) ∧
    ∃ mem2 child2,
      sampleNode.deriveChild zeroPrimitives sampleMemory 0x80000001 = .ok (mem2, child2) :=
  ⟨⟨rfl, by decide, by rfl⟩,
    deriveChild_leaves_parent zeroPrimitives sampleMemory sampleNode 5 0x80000001 0
      sampleMemoryAfter sampleChild rfl (by decide) (by rfl),
    ⟨_, _, rfl⟩⟩

/-! ## The path of `MemorySafeSigningKey.from` -/

set_option maxRecDepth 100000 in
/-- C20, evaluation at test vector 1 of BIP32 with the path `m/0'`: the code
turns the path into the numbers `NaN, 0`, where BIP32 reads the single hardened
index `0x80000000`; it returns the scalar `f26cf12f...342322aa` of `m/0/0`,
while its own loop on the BIP32 indices returns `edb2e14f...11a0afea`, the key
of `m/0'` in the test vector. -/
theorem fromPath_vector_diverges :
    pathIndexes "m/0'" = [none, some 0] ∧
    bip32Indexes "m/0'" = [some 0x80000000] ∧
    (∃ key state, MemorySafeSigningKey.fromPath pathPrimitives vectorSeed "m/0'" =
        .ok (key, state) ∧
      (key.privateKeyBuffer.map beValue) =
        some 0xf26cf12f89ab91aeeb8d7324a22e8ba080829db15c9245414b073a8c342322aa) ∧
    (∃ key state, MemorySafeSigningKey.fromIndexes pathPrimitives vectorSeed
        (bip32Indexes "m/0'") = .ok (key, state) ∧
      (key.privateKeyBuffer.map beValue) =
        some 0xedb2e14f9ee77d26dd93b4ecede8d16ed408ce149b6cd80b0715a2d911a0afea) := by
  refine ⟨by decide, by decide, ⟨_, _, rfl, ?_⟩, ⟨_, _, rfl, ?_⟩⟩
  · decide
  · decide

/-! ## The bytes of the child scalar -/

theorem foldl_set_getElem? (l : List Nat) (g : Nat → Nat) :
    ∀ (init : List Nat) (j : Nat), j < init.length →
      (l.foldl (fun buffer i => buffer.set i (g i)) init)[j]? =
        if j ∈ l then some (g j) else init[j]? := by
  induction l with
  | nil => intro init j _; simp
  | cons i l ih =>
    intro init j hj
    rw [List.foldl_cons, ih (init.set i (g i)) j (by rw [List.length_set]; exact hj)]
    by_cases hmem : j ∈ l
    · simp [hmem]
    · by_cases hij : i = j
      · subst hij
        simp [hmem, List.getElem?_set_self hj]
      · have hji : ¬ j = i := fun h => hij h.symm
        simp [hmem, hji, List.getElem?_set_ne hij]

theorem childBuffer_getElem? (IL key : List Nat) (i : Nat) (hi : i < 32) :
    (childBuffer IL key)[i]? = some (childByte IL key i) := by
  unfold childBuffer
  rw [foldl_set_getElem? _ _ _ i (by simpa using hi)]
  simp [hi]

/-- C21, evaluation at test vector 1 of BIP32 (seed `000102...0f`, child `m/0'`),
byte 1: `IL[1]` is `0xbf`, the parent scalar has `0xf3` and `N[1]` is `0xff`;
`deriveChild (0x80000000)` on the root writes `0xb2` in the child scalar, while
`(IL[1] + parent[1]) % N[1]` is `(0xbf + 0xf3) % 0xff = 0xb3`. -/
theorem deriveChild_byte_vector_diverges :
    ∃ root child key,
      MemorySafeHDNodeWallet.fromSeed vectorPrimitives vectorSeed = .ok root ∧
      root.signingKey.privateKeyBuffer = some (vectorMaster.take 32) ∧
      ser_I vectorPrimitives 0x80000000 root.chainCode root.publicKey
        root.signingKey.privateKeyBuffer = .ok (vectorChild.take 32, vectorChild.drop 32) ∧
      root.deriveChild vectorPrimitives 0x80000000 = .ok child ∧
      child.signingKey.privateKeyBuffer = some key ∧
      (vectorChild.take 32)[1]? = some 0xbf ∧
      (vectorMaster.take 32)[1]? = some 0xf3 ∧
      N[1]? = some 0xff ∧
      key[1]? = some 0xb2 ∧
      (0xbf + 0xf3) % 0xff = 0xb3 ∧
      key[1]? ≠ some ((0xbf + 0xf3) % 0xff) := by
  have hroot := fromSeed_eq vectorPrimitives vectorSeed (by decide) (by decide) (by decide) rfl
  have e : serIData 0x80000000 (List.replicate 33 2) (some (vectorMaster.take 32)) =
      .ok ([0] ++ vectorMaster.take 32 ++ [0x80, 0, 0, 0]) := by rfl
  have h := deriveChild_eq vectorPrimitives
    (MemorySafeHDNodeWallet.mk ⟨some (vectorMaster.take 32)⟩ "0x00000000"
      (vectorMaster.drop 32) (some "m") 0 0 (List.replicate 33 2) "0x00000000")
    0x80000000 (vectorMaster.take 32) _ (by decide) rfl e (by decide) rfl
  refine ⟨_, _, _, hroot, rfl, ?_, h, rfl, by decide, by decide, by decide, ?_, by decide, ?_⟩
  · rfl
  · decide
  · decide

/-! ## Skipped steps, unbound identifiers and scratch arrays -/

set_option maxRecDepth 100000 in
/-- C22, evaluation: a step whose `IL` is the group order is skipped with the
private key unchanged, but the chain code, a view of `masterKeyBuffer`, has
become the new `IR` (zeros in place of ones); a step whose sum is zero is
skipped with the private key left at zero and the chain code replaced; and
`from` on the path `0`, where that step is the last one, returns the zero
scalar. -/
theorem fromStep_skip_changes_state :
    (∃ s, fromStep orderPrimitives (some 0) skipState = .ok s ∧
      compareWithCurveOrder s.masterKeyBuffer ≥ 0 ∧
      s.privateKeyBuffer = skipState.privateKeyBuffer ∧
      skipState.masterKeyBuffer.drop 32 = List.replicate 32 1 ∧
      s.masterKeyBuffer.drop 32 = List.replicate 32 0) ∧
    (∃ s, fromStep zeroSumPrimitives (some 0) skipState = .ok s ∧
      beValue skipState.privateKeyBuffer = 1 ∧
      isBufferZero s.privateKeyBuffer = true ∧
      s.privateKeyBuffer = List.replicate 32 0 ∧
      s.masterKeyBuffer.drop 32 = List.replicate 32 7) ∧
    (∃ key state, MemorySafeSigningKey.fromPath zeroSumPrimitives vectorSeed "0" =
        .ok (key, state) ∧
      key.privateKeyBuffer = some (List.replicate 32 0)) := by
  refine ⟨⟨_, rfl, ?_, ?_, ?_, ?_⟩, ⟨_, rfl, ?_, ?_, ?_, ?_⟩, ⟨_, _, rfl, ?_⟩⟩ <;> decide

/-- C23, evaluation: `computeSharedSecret` never returns a value; on an input
that the library decodes to a public key it fails on the unbound identifier
`hexlify`, which the module, like `getBytes`, does not bind. -/
theorem computeSharedSecret_unbound :
    (∀ (C : CurvePrimitives) (self : MemorySafeSigningKey) (other : List Nat),
      ∃ e, self.computeSharedSecret C other = .error e) ∧
    (∀ (C : CurvePrimitives) (self : MemorySafeSigningKey) (other pubKey : List Nat),
      C.computePublicKey other = .ok pubKey →
        self.computeSharedSecret C other = .error (.referenceError "hexlify")) ∧
    (MemorySafeSigningKey.mk (some sampleScalar)).computeSharedSecret sampleCurve
        vectorMasterPublic = .error (.referenceError "hexlify") ∧
    "hexlify" ∈ computeSharedSecretIdentifiers ∧ "hexlify" ∉ moduleBindings ∧
    "getBytes" ∈ computeSharedSecretIdentifiers ∧ "getBytes" ∉ moduleBindings := by
  refine ⟨?_, ?_, rfl, by decide, by decide, by decide, by decide⟩
  · intro C self other
    unfold MemorySafeSigningKey.computeSharedSecret
    cases C.computePublicKey other with
    | error e => exact ⟨e, rfl⟩
    | ok v => exact ⟨_, rfl⟩
  · intro C self other pubKey h
    unfold MemorySafeSigningKey.computeSharedSecret
    rw [h]
    rfl

theorem isBufferZero_replicate (k : Nat) : isBufferZero (List.replicate k 0) = true := by
  simp [isBufferZero, List.all_eq_true]

theorem fromIndexes_scratch_zero (P : Primitives) (seed : List Nat)
    (indexes : List (Option Nat)) (key : MemorySafeSigningKey) (state : FromState)
    (h : MemorySafeSigningKey.fromIndexes P seed indexes = .ok (key, state)) :
    isBufferZero state.masterKeyBuffer = true ∧
    isBufferZero state.derivationPathBuffer = true := by
  unfold MemorySafeSigningKey.fromIndexes at h
  simp only [bind, Except.bind, pure, Except.pure] at h
  split at h
  · exact absurd h (by simp)
  · split at h
    · exact absurd h (by simp)
    · split at h
      · exact absurd h (by simp)
      · split at h
        · exact absurd h (by simp)
        · have h1 := (Prod.mk.inj (Except.ok.inj h)).2
          rw [← h1]
          exact ⟨isBufferZero_replicate _, isBufferZero_replicate _⟩

set_option maxRecDepth 100000 in
/-- C24, evaluation at test vector 1: when `deriveChild (0x80000000)` returns,
the array `data` of `ser_I` still holds the derivation message and the array `I`
still holds the HMAC output; when `fromSeed` returns, `I` still holds the HMAC
output.  `MemorySafeSigningKey.from`, in contrast, returns with
`masterKeyBuffer` and `derivationPathBuffer` all zero. -/
theorem scratch_arrays_left :
    (∃ mem1 child, vectorRoot.deriveChild pathPrimitives vectorMemory 0x80000000 =
        .ok (mem1, child) ∧
      mem1.read 1 = [0] ++ vectorMaster.take 32 ++ [0x80, 0, 0, 0] ∧
      mem1.read 2 = vectorChild ∧
      isBufferZero (mem1.read 1) = false ∧ isBufferZero (mem1.read 2) = false) ∧
    (∃ mem1 root, HDNodeObject.fromSeed pathPrimitives { cells := [] } vectorSeed =
        .ok (mem1, root) ∧
      MemorySafeHDNodeWallet.fromSeed pathPrimitives vectorSeed = .ok (root.contents mem1) ∧
      mem1.read 0 = vectorMaster ∧ isBufferZero (mem1.read 0) = false) ∧
    (∀ (P : Primitives) (seed : List Nat) (indexes : List (Option Nat))
      (key : MemorySafeSigningKey) (state : FromState),
      MemorySafeSigningKey.fromIndexes P seed indexes = .ok (key, state) →
        isBufferZero state.masterKeyBuffer = true ∧
        isBufferZero state.derivationPathBuffer = true) := by
  refine ⟨⟨_, _, rfl, ?_, ?_, ?_, ?_⟩, ⟨_, _, rfl, rfl, ?_, ?_⟩, fromIndexes_scratch_zero⟩ <;>
    decide

end UsdtWallet
